import Mathlib

/-!
Swagger declaration builder of go-restful.

A shallow embedding of `swagger/swagger_builder.go`, of the registry and the
two handlers of `swagger/swagger_webservice.go`, and of the model builder as
the specification describes it, followed by theorems about them.

Conventions of the embedding

* A Go `string` is a sequence of bytes: `GoString` is `List UInt8`, a Go string
  literal is written `go "..."` (its UTF-8 bytes), `s[:n]` is `List.take n`.
* A Go `for` loop over a slice is a `List.foldl` whose accumulator holds the
  variables the loop body assigns.
* A Go `map[string]T` is an association list with distinct keys (`GoMap`);
  the order in which `range` visits a map is not fixed by the language, so it
  is a component of the environment `Env`, constrained only to be a
  permutation of the entries.
* An `interface{}` sample is used by the builder only through
  `reflect.TypeOf`, so it is modelled by `Option reflect.GoType`: `none` is the
  nil interface, `some t` a value of dynamic type `t`.
-/

/-- A Go string: its bytes. -/
abbrev GoString := List UInt8

/-- The Go string literal with the given text (UTF-8 encoded, as Go source is). -/
def go (s : String) : GoString := s.toList.flatMap String.utf8EncodeChar

/-- A Go map with string keys: the entries, with pairwise distinct keys. -/
abbrev GoMap (α : Type) := List (GoString × α)

/-- Map read `m[k]`: the stored value, or the zero value `zero` of the value
type when the key is absent. -/
def GoMap.lookup {α : Type} (m : GoMap α) (k : GoString) (zero : α) : α :=
  match m with
  | [] => zero
  | (k', v) :: rest => if k' = k then v else GoMap.lookup rest k zero

/-- Map write `m[k] = v`: replaces the value of an existing key, adds a new
entry otherwise. -/
def GoMap.assign {α : Type} (m : GoMap α) (k : GoString) (v : α) : GoMap α :=
  match m with
  | [] => [(k, v)]
  | (k', v') :: rest => if k' = k then (k, v) :: rest else (k', v') :: GoMap.assign rest k v

namespace strings

/-- Go `strings.HasPrefix(s, pre)`. -/
def HasPrefix (s pre : GoString) : Bool := pre.isPrefixOf s

/-- Go `strings.HasSuffix(s, suffix)`. -/
def HasSuffix (s suffix : GoString) : Bool := suffix.isSuffixOf s

/-- Go `strings.Index(s, substr)`: the byte index of the first occurrence of
`substr` in `s`, or `-1` when there is none. -/
def Index (s substr : GoString) : Int :=
  match s with
  | [] => if substr = [] then 0 else -1
  | c :: rest =>
    if substr.isPrefixOf (c :: rest) then 0
    else
      let i := Index rest substr
      if i = -1 then -1 else i + 1

end strings

namespace reflect

/-- The kinds of `reflect.Kind` that the builder tells apart; every kind it
never tests for (Bool, Int, String, Map, ...) is `Other`. -/
inductive Kind where
  | Array
  | Ptr
  | Slice
  | Struct
  | Other
  deriving DecidableEq

/-- A Go runtime type, as seen through `reflect.Type`. -/
inductive GoType where
  /-- A defined struct type `pkg.name`. -/
  | struct (pkg name : GoString)
  /-- A predeclared type without element type (`int`, `string`, ...). -/
  | scalar (name : GoString)
  /-- The pointer type `*elem`. -/
  | ptr (elem : GoType)
  /-- The slice type `[]elem`. -/
  | slice (elem : GoType)
  /-- The array type `[len]elem`. -/
  | array (len : Nat) (elem : GoType)
  /-- A defined type `type pkg.name underlying` over a composite type. -/
  | defined (pkg name : GoString) (underlying : GoType)
  deriving DecidableEq

/-- Go `Type.Kind()`: the kind of the underlying type. -/
def GoType.Kind : GoType → Kind
  | .struct _ _ => .Struct
  | .scalar _ => .Other
  | .ptr _ => .Ptr
  | .slice _ => .Slice
  | .array _ _ => .Array
  | .defined _ _ u => u.Kind

/-- Go `Type.Elem()`: the element type of a pointer, slice or array type.
On a type of another kind `Elem` panics; the builder calls it only behind a
`Kind` test that excludes those, where this definition returns the type
itself. -/
def GoType.Elem : GoType → GoType
  | .struct pkg name => .struct pkg name
  | .scalar name => .scalar name
  | .ptr e => e
  | .slice e => e
  | .array _ e => e
  | .defined _ _ u => u.Elem

/-- Go `Type.Name()`: the name of a defined or predeclared type within its
package, empty for an unnamed composite type. -/
def GoType.Name : GoType → GoString
  | .struct _ name => name
  | .scalar name => name
  | .ptr _ => []
  | .slice _ => []
  | .array _ _ => []
  | .defined _ name _ => name

/-- Go `Type.String()`: the package-qualified rendering of a type. -/
def GoType.String : GoType → GoString
  | .struct pkg name => pkg ++ go "." ++ name
  | .scalar name => name
  | .ptr e => go "*" ++ e.String
  | .slice e => go "[]" ++ e.String
  | .array n e => go "[" ++ go (toString n) ++ go "]" ++ e.String
  | .defined pkg name _ => pkg ++ go "." ++ name

end reflect

namespace restful

/-- Modelled from the spec: ParameterDescriptor of §3 (the declaration of
`restful.ParameterData` is not among the sources); the fields are those
`asSwaggerParameter` reads. -/
structure ParameterData where
  Name : GoString
  Description : GoString
  DataType : GoString
  Kind : Int
  Required : Bool
  deriving DecidableEq

/-- Modelled from the spec: a parameter descriptor as declared on a service or
a route (`restful.Parameter` is not among the sources); the builder reads it
only through `Data()`. -/
structure Parameter where
  data : ParameterData
  deriving DecidableEq

/-- The accessor `Parameter.Data()`. -/
def Parameter.Data (p : Parameter) : ParameterData := p.data

/-- Modelled from the spec: RouteDescriptor of §3 (the declaration of
`restful.Route` is not among the sources); the fields are those the builder
reads. -/
structure Route where
  Method : GoString
  Produces : List GoString
  Consumes : List GoString
  Path : GoString
  Doc : GoString
  Operation : GoString
  ParameterDocs : List Parameter
  ReadSample : Option reflect.GoType
  WriteSample : Option reflect.GoType
  deriving DecidableEq

/-- Modelled from the spec: ServiceDescriptor of §3 (the declaration of
`restful.WebService` is not among the sources): what its four accessors
return. -/
structure WebService where
  rootPath : GoString
  routes : List Route
  pathParameters : List Parameter
  documentation : GoString
  deriving DecidableEq

/-- The accessor `WebService.RootPath()`. -/
def WebService.RootPath (w : WebService) : GoString := w.rootPath

/-- The accessor `WebService.Routes()`. -/
def WebService.Routes (w : WebService) : List Route := w.routes

/-- The accessor `WebService.PathParameters()`. -/
def WebService.PathParameters (w : WebService) : List Parameter := w.pathParameters

/-- The accessor `WebService.Documentation()`. -/
def WebService.Documentation (w : WebService) : GoString := w.documentation

end restful

namespace swagger

open restful reflect

/-- Modelled from the spec: the declaration's parameter representation (§6:
name, description, paramType, type, dataType, format, required); the struct
`Parameter` of package swagger is not among the sources. The Go field `Type`
is written `Type_`, here and in `Operation`. -/
structure Parameter where
  Name : GoString
  Description : GoString
  ParamType : GoString
  Type_ : GoString
  DataType : GoString
  Format : GoString
  Required : Bool
  deriving DecidableEq

/-- Modelled from the spec: Operation of §3; the struct is not among the
sources, the fields are those the builder assigns. The zero value has every
field empty. -/
structure Operation where
  HttpMethod : GoString := []
  Summary : GoString := []
  Type_ : GoString := []
  Nickname : GoString := []
  Consumes : List GoString := []
  Produces : List GoString := []
  Parameters : List Parameter := []
  deriving DecidableEq

/-- Modelled from the spec: Api of §3 (a path, a description and the ordered
operations of that path); the struct is not among the sources. -/
structure Api where
  Path : GoString := []
  Description : GoString := []
  Operations : List Operation := []
  deriving DecidableEq

/-- Modelled from the spec: Model of §3, a named schema mapping property names
to property types; the struct is not among the sources and the builder never
looks inside it. -/
structure Model where
  Id : GoString := []
  Properties : GoMap GoString := []
  deriving DecidableEq

/-- Modelled from the spec: the declaration document of §6; the struct
`ApiDeclaration` is not among the sources. The zero value has every field
empty. -/
structure ApiDeclaration where
  SwaggerVersion : GoString := []
  BasePath : GoString := []
  ResourcePath : GoString := []
  Apis : List Api := []
  Models : GoMap Model := []
  deriving DecidableEq

/-- Modelled from the spec: the configuration surface of §6 that the builder
and the registry read (the struct `Config` is not among the sources). -/
structure Config where
  WebServicesUrl : GoString
  ApiPath : GoString
  WebServices : List WebService
  deriving DecidableEq

/-- What the two source files use and do not define.

* `swaggerVersion`: the package constant.
* the five parameter-kind constants of package restful.
* `keyFrom` and `addModel`: the two methods of `modelBuilder` that
  `addModelFromSampleTo` calls; `addModel models st nameOverride` returns the
  model table after its update.
* `range`: the order in which a `range` loop visits the entries of a map, a
  permutation of them. -/
structure Env where
  swaggerVersion : GoString
  PathParameterKind : Int
  QueryParameterKind : Int
  BodyParameterKind : Int
  HeaderParameterKind : Int
  FormParameterKind : Int
  keyFrom : GoType → GoString
  addModel : GoMap Model → GoType → GoString → GoMap Model
  range : (α : Type) → GoMap α → GoMap α
  range_perm : ∀ (α : Type) (m : GoMap α), List.Perm (range α m) m

/-- The builder struct: a configuration and the service it documents. -/
structure SwaggerApiDeclarationBuilder where
  Config : Config
  Service : WebService
  deriving DecidableEq

/-- Source `asFormat`. -/
def asFormat (_name : GoString) : GoString := go ""

/-- Source `asParamType`: the cases of the switch are tried in order. -/
def asParamType (env : Env) (kind : Int) : GoString :=
  if kind = env.PathParameterKind then go "path"
  else if kind = env.QueryParameterKind then go "query"
  else if kind = env.BodyParameterKind then go "body"
  else if kind = env.HeaderParameterKind then go "header"
  else if kind = env.FormParameterKind then go "form"
  else go ""

/-- Source `asSwaggerParameter`. -/
def asSwaggerParameter (env : Env) (param : ParameterData) : Parameter :=
  { Name := param.Name
    Description := param.Description
    ParamType := asParamType env param.Kind
    Type_ := param.DataType
    DataType := param.DataType
    Format := asFormat param.DataType
    Required := param.Required }

/-- Source `asDataType`. -/
def asDataType (any : Option GoType) : GoString :=
  match any with
  | none => go "void"
  | some t => t.Name

namespace SwaggerApiDeclarationBuilder

/-- Source `staticPathFromRoute`. -/
def staticPathFromRoute (_b : SwaggerApiDeclarationBuilder) (r : Route) : GoString :=
  let static := r.Path
  let bracket := strings.Index static (go "\x7b")
  if bracket ≤ 1 then static
  else
    let static := if bracket ≠ -1 then r.Path.take bracket.toNat else static
    if strings.HasSuffix static (go "/") then static.take (static.length - 1)
    else static

/-- Source `addModelFromSampleTo`, for a sample of dynamic type `sample`
(both call sites pass a non-nil sample). Returns the operation and the model
table after the call. -/
def addModelFromSampleTo (_b : SwaggerApiDeclarationBuilder) (env : Env)
    (operation : Operation) (isResponse : Bool) (sample : GoType)
    (models : GoMap Model) : Operation × GoMap Model :=
  let st := sample
  let resolved : GoType × Bool :=
    if st.Kind = Kind.Slice ∨ st.Kind = Kind.Array then (st.Elem, true)
    else if st.Kind = Kind.Ptr then
      if st.Elem.Kind = Kind.Slice ∨ st.Elem.Kind = Kind.Array then (st.Elem.Elem, true)
      else (st, false)
    else (st, false)
  let st := resolved.1
  let isCollection := resolved.2
  let modelName := env.keyFrom st
  let operation : Operation :=
    if isResponse then
      let modelName := if isCollection then go "array[" ++ modelName ++ go "]" else modelName
      { operation with Type_ := modelName }
    else operation
  (operation, env.addModel models sample (go ""))

/-- Source `addModelsFromRouteTo`; `models` is `decl.Models`. -/
def addModelsFromRouteTo (b : SwaggerApiDeclarationBuilder) (env : Env)
    (operation : Operation) (route : Route) (models : GoMap Model) :
    Operation × GoMap Model :=
  let s1 : Operation × GoMap Model :=
    match route.ReadSample with
    | some sample => b.addModelFromSampleTo env operation false sample models
    | none => (operation, models)
  match route.WriteSample with
  | some sample => b.addModelFromSampleTo env s1.1 true sample s1.2
  | none => s1

/-- Lines 38-41 of `ComposeDeclaration`: the translated root parameters. -/
def rootParams (b : SwaggerApiDeclarationBuilder) (env : Env) : List Parameter :=
  b.Service.PathParameters.foldl
    (fun rootParams param => rootParams ++ [asSwaggerParameter env param.Data]) []

/-- Lines 45-48 of `ComposeDeclaration`: the body of the grouping loop. -/
def groupStep (pathPrefix : GoString) (pathToRoutes : GoMap (List Route)) (other : Route) :
    GoMap (List Route) :=
  if strings.HasPrefix other.Path pathPrefix then
    let routes := GoMap.lookup pathToRoutes other.Path []
    GoMap.assign pathToRoutes other.Path (routes ++ [other])
  else pathToRoutes

/-- Lines 43-49 of `ComposeDeclaration`: the routes with the prefix, grouped by
path. -/
def pathToRoutes (b : SwaggerApiDeclarationBuilder) (pathPrefix : GoString) :
    GoMap (List Route) :=
  b.Service.Routes.foldl (groupStep pathPrefix) []

/-- Lines 53-69 of `ComposeDeclaration`: the body of the loop over the routes
of one path, up to the operation it appends; `models` is `decl.Models`. -/
def composeOperation (b : SwaggerApiDeclarationBuilder) (env : Env)
    (rootParams : List Parameter) (route : Route) (models : GoMap Model) :
    Operation × GoMap Model :=
  let operation : Operation :=
    { HttpMethod := route.Method
      Summary := route.Doc
      Type_ := asDataType route.WriteSample
      Nickname := route.Operation }
  let operation := { operation with Consumes := route.Consumes }
  let operation := { operation with Produces := route.Produces }
  let operation := rootParams.foldl
    (fun (operation : Operation) swparam =>
      { operation with Parameters := operation.Parameters ++ [swparam] }) operation
  let operation := route.ParameterDocs.foldl
    (fun (operation : Operation) param =>
      { operation with
        Parameters := operation.Parameters ++ [asSwaggerParameter env param.Data] }) operation
  b.addModelsFromRouteTo env operation route models

/-- Lines 51-72 of `ComposeDeclaration`: the body of the loop over the map
entries; returns the declaration with the new Api appended. -/
def composeApi (b : SwaggerApiDeclarationBuilder) (env : Env)
    (rootParams : List Parameter) (decl : ApiDeclaration)
    (entry : GoString × List Route) : ApiDeclaration :=
  let path := entry.1
  let routes := entry.2
  let api : Api := { Path := path, Description := b.Service.Documentation }
  let state : Api × ApiDeclaration :=
    routes.foldl
      (fun (state : Api × ApiDeclaration) route =>
        let api := state.1
        let decl := state.2
        let built := b.composeOperation env rootParams route decl.Models
        ({ api with Operations := api.Operations ++ [built.1] },
         { decl with Models := built.2 })) (api, decl)
  let api := state.1
  let decl := state.2
  { decl with Apis := decl.Apis ++ [api] }

/-- Source `ComposeDeclaration`. -/
def ComposeDeclaration (b : SwaggerApiDeclarationBuilder) (env : Env)
    (pathPrefix : GoString) : ApiDeclaration :=
  let decl : ApiDeclaration :=
    { SwaggerVersion := env.swaggerVersion
      BasePath := b.Config.WebServicesUrl
      ResourcePath := b.Service.RootPath
      Models := [] }
  let rootParams := b.rootParams env
  let pathToRoutes := b.pathToRoutes pathPrefix
  (env.range (List Route) pathToRoutes).foldl (b.composeApi env rootParams) decl

/-- Source `ApiDeclaration`. The results `key` and `decl` are named: they
start at their zero values. In the loop, `key := ...` declares a variable of
the loop body, while `decl = ...` assigns the result. -/
def ApiDeclaration (b : SwaggerApiDeclarationBuilder) (env : Env) :
    GoString × swagger.ApiDeclaration :=
  let key : GoString := go ""
  let decl : swagger.ApiDeclaration := {}
  let rootPath := b.Service.RootPath
  if rootPath = go "" ∨ rootPath = go "/" then
    let decl := b.Service.Routes.foldl
      (fun (_decl : swagger.ApiDeclaration) route =>
        let key := b.staticPathFromRoute route
        b.ComposeDeclaration env key) decl
    (key, decl)
  else
    let key := b.Service.RootPath
    let decl := b.ComposeDeclaration env key
    (key, decl)

/-! ### Notions used to state the theorems -/

/-- The routes of a list that carry the prefix and have exactly the path `k`,
in the order of the list. -/
def routesAt (routes : List Route) (pathPrefix k : GoString) : List Route :=
  routes.filter (fun r => strings.HasPrefix r.Path pathPrefix && decide (r.Path = k))

/-- What the grouping loop maintains after the routes `done`. -/
structure Grouped (pathPrefix : GoString) (m : GoMap (List Route)) (done : List Route) :
    Prop where
  nodup : (m.map Prod.fst).Nodup
  entries : ∀ e ∈ m, e.2 = routesAt done pathPrefix e.1 ∧ e.2 ≠ []
  covered : ∀ r ∈ done, strings.HasPrefix r.Path pathPrefix = true → r.Path ∈ m.map Prod.fst

/-- The response type `addModelFromSampleTo` derives from a write sample of
dynamic type `t`. -/
def responseType (b : SwaggerApiDeclarationBuilder) (env : Env) (t : GoType) : GoString :=
  (b.addModelFromSampleTo env {} true t []).1.Type_

/-- The operation `ComposeDeclaration` builds for a route: the first component
of the loop body, which does not depend on the model table. -/
def operationOf (b : SwaggerApiDeclarationBuilder) (env : Env) (route : Route) : Operation :=
  (b.composeOperation env (b.rootParams env) route []).1

/-- The Api `ComposeDeclaration` builds for one entry of the grouping map. -/
def apiOf (b : SwaggerApiDeclarationBuilder) (env : Env) (entry : GoString × List Route) : Api :=
  { Path := entry.1
    Description := b.Service.Documentation
    Operations := entry.2.map (b.operationOf env) }

end SwaggerApiDeclarationBuilder

/-! ### Concrete services -/

/-- Modelled from the spec: `modelBuilder.keyFrom` is not among the sources;
§4.2 step 4 derives the model name deterministically from the identity of the
type it is given, its package-qualified name. -/
def modelBuilder.keyFrom (st : GoType) : GoString := st.String

/-- A model-table update for evaluating the builder on concrete services: it
records an empty model under the name of the type (or under the override name)
unless the name is present. No theorem depends on this choice. -/
def recordModel (models : GoMap Model) (st : GoType) (nameOverride : GoString) : GoMap Model :=
  let modelName := if nameOverride = go "" then modelBuilder.keyFrom st else nameOverride
  if modelName ∈ models.map Prod.fst then models
  else GoMap.assign models modelName { Id := modelName }

/-- An environment for evaluating the builder on concrete services: version
"1.2", the kinds numbered 0 to 4 in the order path, query, body, header, form,
and maps visited in insertion order. -/
def exampleEnv : Env :=
  { swaggerVersion := go "1.2"
    PathParameterKind := 0
    QueryParameterKind := 1
    BodyParameterKind := 2
    HeaderParameterKind := 3
    FormParameterKind := 4
    keyFrom := modelBuilder.keyFrom
    addModel := recordModel
    range := fun _ m => m
    range_perm := fun _ m => List.Perm.refl m }

/-- The struct type `main.Book`. -/
def bookType : GoType := .struct (go "main") (go "Book")

/-- The route `GET /books`, answering a slice of books. -/
def listBooks : Route :=
  { Method := go "GET", Produces := [go "application/json"], Consumes := []
    Path := go "/books", Doc := go "all books", Operation := go "listBooks"
    ParameterDocs := [], ReadSample := none, WriteSample := some (.slice bookType) }

/-- The route `GET /books/{id}`, answering a pointer to a book. -/
def getBook : Route :=
  { Method := go "GET", Produces := [go "application/json"], Consumes := []
    Path := go "/books/{id}", Doc := go "one book", Operation := go "getBook"
    ParameterDocs := [⟨⟨go "id", go "book id", go "string", 0, true⟩⟩]
    ReadSample := none, WriteSample := some (.ptr bookType) }

/-- The route `POST /books/{id}/reviews`, reading a review and answering
nothing. -/
def addReview : Route :=
  { Method := go "POST", Produces := [], Consumes := [go "application/json"]
    Path := go "/books/{id}/reviews", Doc := go "add a review", Operation := go "addReview"
    ParameterDocs := [⟨⟨go "id", go "book id", go "string", 0, true⟩⟩,
      ⟨⟨go "body", go "the review", go "main.Review", 2, true⟩⟩]
    ReadSample := some (.struct (go "main") (go "Review")), WriteSample := none }

/-- A builder for the service rooted at `/books` with the three routes above
and one root parameter. -/
def booksBuilder : SwaggerApiDeclarationBuilder :=
  { Config := { WebServicesUrl := go "http://localhost:8080", ApiPath := go "/apidocs.json",
                WebServices := [] }
    Service :=
      { rootPath := go "/books"
        routes := [listBooks, getBook, addReview]
        pathParameters := [⟨⟨go "tenant", go "tenant name", go "string", 3, false⟩⟩]
        documentation := go "the book shop" } }

/-- A route with the given path and nothing else. -/
def bareRoute (path : GoString) : Route :=
  { Method := go "GET", Produces := [], Consumes := [], Path := path, Doc := go ""
    Operation := go "", ParameterDocs := [], ReadSample := none, WriteSample := none }

/-- A builder for a service without root path, with routes `/a/{x}` and
`/a/{y}/extra`. -/
def rootlessBuilder : SwaggerApiDeclarationBuilder :=
  { Config := { WebServicesUrl := go "http://localhost:8080", ApiPath := go "/apidocs.json",
                WebServices := [] }
    Service :=
      { rootPath := go ""
        routes := [bareRoute (go "/a/{x}"), bareRoute (go "/a/{y}/extra")]
        pathParameters := []
        documentation := go "" } }

end swagger

/-! ### The documentation service (`swagger_webservice.go`) -/

namespace restful

/-- Modelled from the spec: the request handed over by the routing layer (the
declaration of `restful.Request` is not among the sources); the service reads
it only through `PathParameter`, the captured path segments by name. -/
structure Request where
  pathParameters : GoMap GoString
  deriving DecidableEq

/-- The accessor `Request.PathParameter(name)`: the captured segment, or the
empty string when the route captured none under that name. -/
def Request.PathParameter (req : Request) (name : GoString) : GoString :=
  GoMap.lookup req.pathParameters name (go "")

end restful

namespace swagger

open restful reflect

/-- Modelled from the spec: one entry of the listing document of §6 (path and
description); the struct `ApiRef` is not among the sources. -/
structure ApiRef where
  Path : GoString := []
  Description : GoString := []
  deriving DecidableEq

/-- Modelled from the spec: the listing document of §6; the struct
`ResourceListing` is not among the sources. -/
structure ResourceListing where
  SwaggerVersion : GoString := []
  Apis : List ApiRef := []
  deriving DecidableEq

/-- Source `SwaggerService`. -/
structure SwaggerService where
  config : Config
  apiDeclarationMap : GoMap ApiDeclaration
  deriving DecidableEq

/-- Source `newSwaggerService`. -/
def newSwaggerService (config : Config) : SwaggerService :=
  { config := config, apiDeclarationMap := [] }

/-- Lines 53-62 of `RegisterSwaggerService`: the body of the loop over the
configured services. -/
def registerStep (env : Env) (config : Config) (sws : SwaggerService) (each : WebService) :
    SwaggerService :=
  let rootPath := each.RootPath
  if rootPath ≠ config.ApiPath then
    let b : SwaggerApiDeclarationBuilder := { Config := config, Service := each }
    let result := b.ApiDeclaration env
    let key := result.1
    let decl := result.2
    { sws with apiDeclarationMap := GoMap.assign sws.apiDeclarationMap key decl }
  else sws

/-- Source `RegisterSwaggerService`, as far as the registry goes: the service
object it builds (lines 33 and 51-63). Adding the documentation routes to the
container and mounting the static files belong to the HTTP layer and are left
out. -/
def RegisterSwaggerService (env : Env) (config : Config) : SwaggerService :=
  let sws := newSwaggerService config
  config.WebServices.foldl (registerStep env config) sws

/-- Source `getListing`: the listing that is written as JSON. -/
def SwaggerService.getListing (sws : SwaggerService) (env : Env) : ResourceListing :=
  let listing : ResourceListing := { SwaggerVersion := env.swaggerVersion }
  (env.range swagger.ApiDeclaration sws.apiDeclarationMap).foldl
    (fun (listing : ResourceListing) (entry : GoString × swagger.ApiDeclaration) =>
      let k := entry.1
      let v := entry.2
      let ref : ApiRef := { Path := k }
      let ref : ApiRef :=
        if v.Apis.length > 0 then { ref with Description := (v.Apis.headD {}).Description }
        else ref
      { listing with Apis := listing.Apis ++ [ref] }) listing

/-- Source `composeRootPath`. -/
def composeRootPath (req : Request) : GoString :=
  let path := go "/" ++ req.PathParameter (go "a")
  let b := req.PathParameter (go "b")
  if b = go "" then path
  else
    let path := path ++ go "/" ++ b
    let c := req.PathParameter (go "c")
    if c = go "" then path
    else
      let path := path ++ go "/" ++ c
      let d := req.PathParameter (go "d")
      if d = go "" then path
      else
        let path := path ++ go "/" ++ d
        let e := req.PathParameter (go "e")
        if e = go "" then path
        else
          let path := path ++ go "/" ++ e
          let f := req.PathParameter (go "f")
          if f = go "" then path
          else
            let path := path ++ go "/" ++ f
            let g := req.PathParameter (go "g")
            if g = go "" then path
            else path ++ go "/" ++ g

/-- Source `getDeclarations`: the declaration that is written as JSON, the
zero declaration when the key is not in the registry. -/
def SwaggerService.getDeclarations (sws : SwaggerService) (req : Request) :
    swagger.ApiDeclaration :=
  GoMap.lookup sws.apiDeclarationMap (composeRootPath req) {}

/-- The request in which the segments `segments` are captured, in order, under
the names a, b, c, d, e, f, g of the documentation routes. -/
def requestOf (segments : List GoString) : Request :=
  { pathParameters :=
      List.zip [go "a", go "b", go "c", go "d", go "e", go "f", go "g"] segments }

/-- The seven captured segments of a request, in route order. -/
def segmentsOf (req : Request) : List GoString :=
  [go "a", go "b", go "c", go "d", go "e", go "f", go "g"].map req.PathParameter

end swagger

namespace swagger

open restful reflect

/-- The entry `getListing` builds for one entry of the registry (lines 107-110). -/
def apiRefOf (entry : GoString × swagger.ApiDeclaration) : ApiRef :=
  let k := entry.1
  let v := entry.2
  let ref : ApiRef := { Path := k }
  if v.Apis.length > 0 then { ref with Description := (v.Apis.headD {}).Description }
  else ref

/-- A configuration with three services: the books service, a service at the
documentation path itself and the rootless service. -/
def exampleConfig : Config :=
  { WebServicesUrl := go "http://localhost:8080"
    ApiPath := go "/apidocs.json"
    WebServices :=
      [booksBuilder.Service,
       { rootPath := go "/apidocs.json", routes := [bareRoute (go "/apidocs.json/")],
         pathParameters := [], documentation := go "the documentation" },
       rootlessBuilder.Service] }

end swagger

/-! ### The model builder -/

namespace swagger

open restful reflect

/-- The struct types of the program as reflection shows them: under the
package-qualified name of a struct type, its fields in declaration order, each
a name and a type. A name without entry has no fields. -/
abbrev TypeTable := GoMap (List (GoString × GoType))

namespace modelBuilder

/-- Modelled from the spec: the type introspection of the model builder, which
is not among the sources (`addModelFromSampleTo` hands `addModel` the type of
the sample as it is, line 109). §2 item 2: it "resolves pointer and collection
wrapping to find the element type": the record or primitive type under all
pointer, sequence and defined-type wrapping. On the shapes of §4.2 steps 1-3
over a record `X` (a sequence of `X`, a pointer to a sequence of `X`, a pointer
to `X`) it gives `X`. -/
def elementType : GoType → GoType
  | .struct pkg name => .struct pkg name
  | .scalar name => .scalar name
  | .ptr e => elementType e
  | .slice e => elementType e
  | .array _ e => elementType e
  | .defined _ _ u => elementType u

/-- Modelled from the spec: whether the wrapping of a type holds a sequence
(the collection flag of §4.2 steps 1 and 2). -/
def isCollection : GoType → Bool
  | .struct _ _ => false
  | .scalar _ => false
  | .ptr e => isCollection e
  | .slice _ => true
  | .array _ _ => true
  | .defined _ _ u => isCollection u

/-- Modelled from the spec: the model name of a type (§4.2 step 4), derived
from its element type. -/
def modelKey (st : GoType) : GoString := keyFrom (elementType st)

/-- Modelled from the spec: the property type of a field (§3, Model): the
model name of the field type, or "array[T]" for a sequence of `T`. -/
def propertyType (st : GoType) : GoString :=
  if isCollection st then go "array[" ++ modelKey st ++ go "]" else modelKey st

/-- Modelled from the spec: `modelBuilder.addModel` is not among the sources.
§4.2 steps 6 and 7, on the element type of `st`: an existing entry under the
model name is left alone
(first registration wins); otherwise the model is entered in the table before
the fields are visited, so that a cycle comes back to an entry that exists, and
then the type of every field is registered in turn. A type without fields gets
a model under its own name (§4.2, Errors). `fuel` bounds the nesting depth of
the registrations; the result is `none` when it runs out. -/
def addModel (table : TypeTable) : Nat → GoMap Model → GoType → Option (GoMap Model)
  | 0, _, _ => none
  | fuel + 1, models, st =>
    let modelName := modelKey st
    if modelName ∈ models.map Prod.fst then some models
    else
      let fields := GoMap.lookup table modelName []
      let sm : Model :=
        { Id := modelName, Properties := fields.map (fun f => (f.1, propertyType f.2)) }
      let models := GoMap.assign models modelName sm
      fields.foldlM (fun models f => addModel table fuel models f.2) models

/-- The model names that registering `st` can enter: its own and those of the
fields of the table. -/
def nameUniverse (table : TypeTable) (st : GoType) : List GoString :=
  modelKey st :: table.flatMap (fun e => e.2.map (fun f => modelKey f.2))

/-- A nesting depth that is enough for registering `st`. -/
def fuelFor (table : TypeTable) (st : GoType) : Nat := (nameUniverse table st).length + 1

/-- The table after `addModel`, run with enough fuel (the table unchanged were
it not to return). -/
def register (table : TypeTable) (models : GoMap Model) (st : GoType) : GoMap Model :=
  (addModel table (fuelFor table st) models st).getD models

/-- The model names of the field types of the model named `k`. -/
def fieldKeys (table : TypeTable) (k : GoString) : List GoString :=
  (GoMap.lookup table k []).map (fun f => modelKey f.2)

/-- The wrapping of types, stated without the builder: `Wraps t r` when `t` is
the record or primitive type `r` itself, or a pointer to, a sequence of, or a
defined type over, a type that wraps `r`. -/
inductive Wraps : GoType → GoType → Prop where
  | struct (pkg name : GoString) : Wraps (.struct pkg name) (.struct pkg name)
  | scalar (name : GoString) : Wraps (.scalar name) (.scalar name)
  | ptr {e r : GoType} : Wraps e r → Wraps (.ptr e) r
  | slice {e r : GoType} : Wraps e r → Wraps (.slice e) r
  | array {n : Nat} {e r : GoType} : Wraps e r → Wraps (.array n e) r
  | defined {pkg name : GoString} {u r : GoType} : Wraps u r → Wraps (.defined pkg name u) r

/-- The record `t` has a field whose type is `r` or wraps `r`. -/
def RefersTo (table : TypeTable) (t r : GoType) : Prop :=
  ∃ f ∈ GoMap.lookup table (keyFrom t) [], Wraps f.2 r

/-- Reachability through fields: `Reaches table t r` when `r` is `t` or a type
that a type reachable from `t` refers to. A record is self-referential when it
is reachable from a type it refers to; the types of a cycle through it are all
reachable from it. -/
inductive Reaches (table : TypeTable) : GoType → GoType → Prop where
  | refl (t : GoType) : Reaches table t t
  | field {t t₁ t₂ : GoType} : Reaches table t t₁ → RefersTo table t₁ t₂ → Reaches table t t₂

/-- A model table in which every model outside `pending` has the models of all
its field types. -/
def Closed (table : TypeTable) (pending : List GoString) (models : GoMap Model) : Prop :=
  ∀ k ∈ models.map Prod.fst, k ∉ pending → ∀ k' ∈ fieldKeys table k, k' ∈ models.map Prod.fst

/-- The number of names of `u` without model yet. -/
def missing (u : List GoString) (models : GoMap Model) : Nat :=
  (u.dedup.filter (fun k => decide (k ∉ models.map Prod.fst))).length

/-- What a registration step keeps and achieves, from the table `m` to the
table `m'`. -/
structure Registered (table : TypeTable) (pending : List GoString) (m m' : GoMap Model) :
    Prop where
  nodup : (m'.map Prod.fst).Nodup
  grows : ∀ k ∈ m.map Prod.fst, k ∈ m'.map Prod.fst
  closed : Closed table pending m'

end modelBuilder

/-- The environment `env` with the model builder above, over the struct types
of `table`, as its `keyFrom` and `addModel`. -/
def Env.withModelBuilder (env : Env) (table : TypeTable) : Env :=
  { env with
    keyFrom := modelBuilder.keyFrom
    addModel := fun models st _ => modelBuilder.register table models st }

/-- The struct type `main.Node`. -/
def nodeType : GoType := .struct (go "main") (go "Node")

/-- The struct type `main.Author`. -/
def authorType : GoType := .struct (go "main") (go "Author")

/-- Struct types with cycles: `Node` has a field of type `*Node`; `Book` has
the field `Writer *Author` and `Author` the field `Books []*Book`. -/
def cyclicTable : TypeTable :=
  [(go "main.Node", [(go "Value", .scalar (go "int")), (go "Next", .ptr nodeType)]),
   (go "main.Book", [(go "Title", .scalar (go "string")), (go "Writer", .ptr authorType)]),
   (go "main.Author", [(go "Name", .scalar (go "string")), (go "Books", .slice (.ptr bookType))])]

end swagger

/-! ## Theorems -/

/-! ### Strings and maps -/

namespace strings

theorem go_bracket : go "\x7b" = [123] := by decide
theorem go_slash : go "/" = [47] := by decide
theorem go_empty : go "" = [] := by decide

theorem Index_byte_absent (b : UInt8) (s : GoString) (h : b ∉ s) : Index s [b] = -1 := by
  induction s with
  | nil => simp [Index]
  | cons c rest ih =>
    have hc : c ≠ b := fun e => h (by simp [e])
    have hr : b ∉ rest := fun e => h (by simp [e])
    simp [Index, ih hr, Ne.symm hc]

theorem Index_byte_first (b : UInt8) (pre rest : GoString) (h : b ∉ pre) :
    Index (pre ++ b :: rest) [b] = pre.length := by
  induction pre with
  | nil => simp [Index]
  | cons c pre ih =>
    have hc : c ≠ b := fun e => h (by simp [e])
    have hr : b ∉ pre := fun e => h (by simp [e])
    have := ih hr
    simp [Index, this, Ne.symm hc]

theorem HasSuffix_byte (s : GoString) (b : UInt8) :
    HasSuffix s [b] = true ↔ s.getLast? = some b := by
  unfold HasSuffix
  rw [List.isSuffixOf_iff_suffix]
  constructor
  · rintro ⟨t, rfl⟩
    simp
  · intro h
    rcases List.getLast?_eq_some_iff.mp h with ⟨t, rfl⟩
    exact ⟨t, rfl⟩

end strings


namespace GoMap

theorem keys_assign {α : Type} (m : GoMap α) (k : GoString) (v : α) :
    (GoMap.assign m k v).map Prod.fst =
      if k ∈ m.map Prod.fst then m.map Prod.fst else m.map Prod.fst ++ [k] := by
  induction m with
  | nil => simp [GoMap.assign]
  | cons e rest ih =>
    obtain ⟨k', v'⟩ := e
    by_cases hk : k' = k
    · subst hk
      simp [GoMap.assign]
    · have hk' : ¬ k = k' := fun e => hk e.symm
      simp only [GoMap.assign, if_neg hk, List.map_cons, ih, List.mem_cons, hk', false_or]
      split <;> simp

theorem nodup_keys_assign {α : Type} (m : GoMap α) (k : GoString) (v : α)
    (h : (m.map Prod.fst).Nodup) : ((GoMap.assign m k v).map Prod.fst).Nodup := by
  rw [keys_assign]
  split
  · exact h
  · rename_i hk
    exact List.Nodup.append h (List.nodup_singleton k) (by simpa using hk)

theorem mem_assign {α : Type} (m : GoMap α) (k : GoString) (v : α)
    (h : (m.map Prod.fst).Nodup) (e : GoString × α) :
    e ∈ GoMap.assign m k v ↔ e = (k, v) ∨ (e ∈ m ∧ e.1 ≠ k) := by
  induction m with
  | nil => simp [GoMap.assign]
  | cons e' rest ih =>
    obtain ⟨k', v'⟩ := e'
    have hnd : k' ∉ rest.map Prod.fst ∧ (rest.map Prod.fst).Nodup := List.nodup_cons.mp h
    by_cases hk : k' = k
    · subst hk
      simp only [GoMap.assign, if_true, List.mem_cons]
      constructor
      · rintro (rfl | hmem)
        · exact Or.inl rfl
        · refine Or.inr ⟨Or.inr hmem, ?_⟩
          intro he
          exact hnd.1 (he ▸ List.mem_map_of_mem Prod.fst hmem)
      · rintro (rfl | ⟨hmem | hmem, hne⟩)
        · exact Or.inl rfl
        · exact absurd (by rw [hmem]) hne
        · exact Or.inr hmem
    · simp only [GoMap.assign, if_neg hk]
      rw [List.mem_cons, ih hnd.2, List.mem_cons]
      constructor
      · rintro (rfl | rfl | ⟨hmem, hne⟩)
        · exact Or.inr ⟨Or.inl rfl, hk⟩
        · exact Or.inl rfl
        · exact Or.inr ⟨Or.inr hmem, hne⟩
      · rintro (rfl | ⟨rfl | hmem, hne⟩)
        · exact Or.inr (Or.inl rfl)
        · exact Or.inl rfl
        · exact Or.inr (Or.inr ⟨hmem, hne⟩)

theorem lookup_of_mem {α : Type} (m : GoMap α) (k : GoString) (v zero : α)
    (h : (m.map Prod.fst).Nodup) (hmem : (k, v) ∈ m) : GoMap.lookup m k zero = v := by
  induction m with
  | nil => simp at hmem
  | cons e' rest ih =>
    obtain ⟨k', v'⟩ := e'
    have hnd : k' ∉ rest.map Prod.fst ∧ (rest.map Prod.fst).Nodup := List.nodup_cons.mp h
    by_cases hk : k' = k
    · subst hk
      simp only [GoMap.lookup, if_true]
      rcases List.mem_cons.mp hmem with he | he
      · exact (Prod.mk.inj he).2.symm
      · exact absurd (List.mem_map_of_mem Prod.fst he) hnd.1
    · simp only [GoMap.lookup, if_neg hk]
      rcases List.mem_cons.mp hmem with he | he
      · exact absurd (Prod.mk.inj he).1.symm hk
      · exact ih hnd.2 he

theorem lookup_of_not_mem {α : Type} (m : GoMap α) (k : GoString) (zero : α)
    (h : k ∉ m.map Prod.fst) : GoMap.lookup m k zero = zero := by
  induction m with
  | nil => rfl
  | cons e' rest ih =>
    obtain ⟨k', v'⟩ := e'
    have hk : ¬ k' = k := fun e => h (by simp [e])
    have hr : k ∉ rest.map Prod.fst := fun e => h (by simp at e ⊢; exact Or.inr e)
    simp only [GoMap.lookup, if_neg hk]
    exact ih hr

end GoMap

/-! ### The static path of a route -/

namespace swagger
open restful reflect
namespace SwaggerApiDeclarationBuilder

theorem staticPathFromRoute_of_bracket (b : SwaggerApiDeclarationBuilder) (r : Route)
    (pre rest : GoString) (hpath : r.Path = pre ++ go "\x7b" ++ rest)
    (hpre : (0x7b : UInt8) ∉ pre) :
    b.staticPathFromRoute r =
      if pre.length ≤ 1 then r.Path
      else if go "/" <:+ pre then pre.dropLast else pre := by
  have hidx : strings.Index r.Path (go "\x7b") = (pre.length : Int) := by
    rw [hpath, strings.go_bracket]
    simpa using strings.Index_byte_first 123 pre rest hpre
  unfold staticPathFromRoute
  simp only [hidx]
  by_cases hle : pre.length ≤ 1
  · have : (pre.length : Int) ≤ 1 := by exact_mod_cast hle
    simp [this, hle]
  · have h1 : ¬ (pre.length : Int) ≤ 1 := by
      intro h; apply hle; exact_mod_cast h
    have h2 : (pre.length : Int) ≠ -1 := by omega
    have htake : List.take pre.length r.Path = pre := by
      rw [hpath]; simp
    simp only [h1, hle, if_false, h2, ne_eq, not_false_eq_true, if_true, Int.toNat_ofNat, htake]
    have hsuf : strings.HasSuffix pre (go "/") = true ↔ go "/" <:+ pre := by
      unfold strings.HasSuffix
      exact List.isSuffixOf_iff_suffix
    by_cases hs : go "/" <:+ pre
    · rw [if_pos (hsuf.mpr hs), if_pos hs, List.dropLast_eq_take]
    · have : ¬ strings.HasSuffix pre (go "/") = true := fun h => hs (hsuf.mp h)
      rw [if_neg this, if_neg hs]

theorem staticPathFromRoute_no_bracket (b : SwaggerApiDeclarationBuilder) (r : Route)
    (h : (0x7b : UInt8) ∉ r.Path) : b.staticPathFromRoute r = r.Path := by
  have hidx : strings.Index r.Path (go "\x7b") = -1 := by
    rw [strings.go_bracket]
    exact strings.Index_byte_absent 123 r.Path h
  unfold staticPathFromRoute
  simp [hidx]

end SwaggerApiDeclarationBuilder
end swagger

/-! ### The grouping loop -/

namespace swagger
open restful reflect
namespace SwaggerApiDeclarationBuilder

theorem routesAt_append (l₁ l₂ : List Route) (p k : GoString) :
    routesAt (l₁ ++ l₂) p k = routesAt l₁ p k ++ routesAt l₂ p k := by
  simp [routesAt]

theorem Grouped.step {p : GoString} {m : GoMap (List Route)} {done : List Route}
    (h : Grouped p m done) (r : Route) : Grouped p (groupStep p m r) (done ++ [r]) := by
  unfold groupStep
  by_cases hp : strings.HasPrefix r.Path p = true
  · rw [if_pos hp]
    refine ⟨GoMap.nodup_keys_assign _ _ _ h.nodup, ?_, ?_⟩
    · intro e he
      rw [GoMap.mem_assign _ _ _ h.nodup] at he
      rcases he with rfl | ⟨hmem, hne⟩
      · refine ⟨?_, by simp⟩
        show GoMap.lookup m r.Path [] ++ [r] = routesAt (done ++ [r]) p r.Path
        rw [routesAt_append]
        have hlast : routesAt [r] p r.Path = [r] := by simp [routesAt, hp]
        rw [hlast]
        congr 1
        by_cases hk : r.Path ∈ m.map Prod.fst
        · obtain ⟨e, hem, hek⟩ := List.mem_map.mp hk
          have he2 := (h.entries e hem).1
          have : (r.Path, e.2) ∈ m := by rw [← hek]; exact hem
          rw [GoMap.lookup_of_mem m r.Path e.2 [] h.nodup this, he2, hek]
        · rw [GoMap.lookup_of_not_mem m r.Path [] hk]
          symm
          rw [routesAt, List.filter_eq_nil_iff]
          intro r' hr' hcond
          simp only [Bool.and_eq_true, decide_eq_true_eq] at hcond
          exact hk (hcond.2 ▸ h.covered r' hr' hcond.1)
      · have := h.entries e hmem
        refine ⟨?_, this.2⟩
        rw [routesAt_append, this.1]
        have : routesAt [r] p e.1 = [] := by
          simp [routesAt]
          intro _ heq
          exact absurd heq.symm hne
        rw [this, List.append_nil]
    · intro r' hr' hp'
      rw [GoMap.keys_assign]
      rcases List.mem_append.mp hr' with hr' | hr'
      · have := h.covered r' hr' hp'
        split
        · exact this
        · exact List.mem_append_left _ this
      · have : r' = r := by simpa using hr'
        subst this
        split
        · assumption
        · simp
  · rw [if_neg hp]
    refine ⟨h.nodup, ?_, ?_⟩
    · intro e he
      have := h.entries e he
      refine ⟨?_, this.2⟩
      rw [routesAt_append, this.1]
      have : routesAt [r] p e.1 = [] := by
        simp [routesAt]
        intro hh
        exact absurd hh hp
      rw [this, List.append_nil]
    · intro r' hr' hp'
      rcases List.mem_append.mp hr' with hr' | hr'
      · exact h.covered r' hr' hp'
      · have : r' = r := by simpa using hr'
        subst this
        exact absurd hp' hp

theorem Grouped.foldl {p : GoString} (routes : List Route) :
    ∀ (m : GoMap (List Route)) (done : List Route), Grouped p m done →
      Grouped p (routes.foldl (groupStep p) m) (done ++ routes) := by
  induction routes with
  | nil => intro m done h; simpa using h
  | cons r rest ih =>
    intro m done h
    have := ih (groupStep p m r) (done ++ [r]) (h.step r)
    simpa using this

theorem pathToRoutes_grouped (b : SwaggerApiDeclarationBuilder) (p : GoString) :
    Grouped p (b.pathToRoutes p) b.Service.Routes := by
  have h0 : Grouped p [] [] := ⟨by simp, by simp, by simp⟩
  have := Grouped.foldl b.Service.Routes [] [] h0
  simpa [pathToRoutes] using this

end SwaggerApiDeclarationBuilder
end swagger

/-! ### Operations and Apis -/

theorem List.foldl_append_singleton_map {α β : Type} (f : α → β) (l : List α) (acc : List β) :
    l.foldl (fun acc x => acc ++ [f x]) acc = acc ++ l.map f := by
  induction l generalizing acc with
  | nil => simp
  | cons x rest ih => simp [ih]

namespace swagger
open restful reflect
namespace SwaggerApiDeclarationBuilder

theorem rootParams_eq (b : SwaggerApiDeclarationBuilder) (env : Env) :
    b.rootParams env = b.Service.PathParameters.map (fun p => asSwaggerParameter env p.Data) := by
  unfold rootParams
  rw [List.foldl_append_singleton_map (fun p : restful.Parameter => asSwaggerParameter env p.Data)]
  simp

theorem foldl_parameters {α : Type} (f : α → Parameter) (l : List α) (op : Operation) :
    l.foldl (fun (operation : Operation) x =>
        { operation with Parameters := operation.Parameters ++ [f x] }) op =
      { op with Parameters := op.Parameters ++ l.map f } := by
  induction l generalizing op with
  | nil => simp
  | cons x rest ih => simp [ih]

theorem addModelFromSampleTo_read (b : SwaggerApiDeclarationBuilder) (env : Env)
    (op : Operation) (t : GoType) (models : GoMap Model) :
    (b.addModelFromSampleTo env op false t models).1 = op := by
  simp [addModelFromSampleTo]

theorem addModelFromSampleTo_write (b : SwaggerApiDeclarationBuilder) (env : Env)
    (op : Operation) (t : GoType) (models : GoMap Model) :
    (b.addModelFromSampleTo env op true t models).1 =
      { op with Type_ := responseType b env t } := by
  simp [addModelFromSampleTo, responseType]

theorem addModelsFromRouteTo_fst (b : SwaggerApiDeclarationBuilder) (env : Env)
    (op : Operation) (route : Route) (models : GoMap Model) :
    (b.addModelsFromRouteTo env op route models).1 =
      match route.WriteSample with
      | none => op
      | some t => { op with Type_ := responseType b env t } := by
  unfold addModelsFromRouteTo
  cases hr : route.ReadSample <;> cases hw : route.WriteSample <;>
    simp [addModelFromSampleTo_read, addModelFromSampleTo_write]

theorem composeOperation_fst (b : SwaggerApiDeclarationBuilder) (env : Env)
    (rp : List Parameter) (route : Route) (models : GoMap Model) :
    (b.composeOperation env rp route models).1 =
      { HttpMethod := route.Method
        Summary := route.Doc
        Type_ := match route.WriteSample with
          | none => go "void"
          | some t => responseType b env t
        Nickname := route.Operation
        Consumes := route.Consumes
        Produces := route.Produces
        Parameters := rp ++ route.ParameterDocs.map (fun p => asSwaggerParameter env p.Data) } := by
  unfold composeOperation
  simp only []
  rw [foldl_parameters (fun x => x), foldl_parameters (fun p : restful.Parameter => asSwaggerParameter env p.Data),
    addModelsFromRouteTo_fst]
  cases hw : route.WriteSample <;> simp [asDataType]

theorem composeOperation_fst_models (b : SwaggerApiDeclarationBuilder) (env : Env)
    (rp : List Parameter) (route : Route) (models : GoMap Model) :
    (b.composeOperation env rp route models).1 = (b.composeOperation env rp route []).1 := by
  rw [composeOperation_fst, composeOperation_fst]

end SwaggerApiDeclarationBuilder
end swagger

namespace swagger
open restful reflect
namespace SwaggerApiDeclarationBuilder

theorem composeApi_inner (b : SwaggerApiDeclarationBuilder) (env : Env) (routes : List Route) :
    ∀ (api : Api) (decl : swagger.ApiDeclaration),
      let state := routes.foldl
        (fun (state : Api × swagger.ApiDeclaration) route =>
          let api := state.1
          let decl := state.2
          let built := b.composeOperation env (b.rootParams env) route decl.Models
          ({ api with Operations := api.Operations ++ [built.1] },
           { decl with Models := built.2 })) (api, decl)
      state.1 = { api with Operations := api.Operations ++ routes.map (b.operationOf env) } ∧
      state.2.Apis = decl.Apis ∧ state.2.SwaggerVersion = decl.SwaggerVersion ∧
      state.2.BasePath = decl.BasePath ∧ state.2.ResourcePath = decl.ResourcePath := by
  induction routes with
  | nil => intro api decl; simp
  | cons r rest ih =>
    intro api decl
    simp only [List.foldl_cons, List.map_cons]
    have := ih { api with Operations := api.Operations ++
        [(b.composeOperation env (b.rootParams env) r decl.Models).1] }
      { decl with Models := (b.composeOperation env (b.rootParams env) r decl.Models).2 }
    simp only at this
    refine ⟨?_, this.2⟩
    rw [this.1, composeOperation_fst_models]
    simp [operationOf]

theorem composeApi_eq (b : SwaggerApiDeclarationBuilder) (env : Env)
    (decl : swagger.ApiDeclaration) (entry : GoString × List Route) :
    (b.composeApi env (b.rootParams env) decl entry).Apis = decl.Apis ++ [b.apiOf env entry] ∧
    (b.composeApi env (b.rootParams env) decl entry).SwaggerVersion = decl.SwaggerVersion ∧
    (b.composeApi env (b.rootParams env) decl entry).BasePath = decl.BasePath ∧
    (b.composeApi env (b.rootParams env) decl entry).ResourcePath = decl.ResourcePath := by
  have h := composeApi_inner b env entry.2
    { Path := entry.1, Description := b.Service.Documentation } decl
  simp only at h
  obtain ⟨h1, h2, h3, h4, h5⟩ := h
  unfold composeApi
  simp only [h1, h2, h3, h4, h5]
  simp [apiOf]

theorem foldl_composeApi (b : SwaggerApiDeclarationBuilder) (env : Env)
    (entries : List (GoString × List Route)) :
    ∀ decl : swagger.ApiDeclaration,
      (entries.foldl (b.composeApi env (b.rootParams env)) decl).Apis =
          decl.Apis ++ entries.map (b.apiOf env) ∧
      (entries.foldl (b.composeApi env (b.rootParams env)) decl).SwaggerVersion =
          decl.SwaggerVersion ∧
      (entries.foldl (b.composeApi env (b.rootParams env)) decl).BasePath = decl.BasePath ∧
      (entries.foldl (b.composeApi env (b.rootParams env)) decl).ResourcePath =
          decl.ResourcePath := by
  induction entries with
  | nil => intro decl; simp
  | cons e rest ih =>
    intro decl
    obtain ⟨h1, h2, h3, h4⟩ := composeApi_eq b env decl e
    obtain ⟨i1, i2, i3, i4⟩ := ih (b.composeApi env (b.rootParams env) decl e)
    simp only [List.foldl_cons, List.map_cons]
    refine ⟨?_, ?_, ?_, ?_⟩
    · rw [i1, h1]; simp
    · rw [i2, h2]
    · rw [i3, h3]
    · rw [i4, h4]

theorem ComposeDeclaration_apis (b : SwaggerApiDeclarationBuilder) (env : Env)
    (pathPrefix : GoString) :
    (b.ComposeDeclaration env pathPrefix).Apis =
      (env.range (List Route) (b.pathToRoutes pathPrefix)).map (b.apiOf env) := by
  unfold ComposeDeclaration
  simp only
  rw [(foldl_composeApi b env _ _).1]
  simp

end SwaggerApiDeclarationBuilder
end swagger

namespace swagger
open restful reflect
namespace SwaggerApiDeclarationBuilder

theorem mem_apis_iff (b : SwaggerApiDeclarationBuilder) (env : Env) (pathPrefix : GoString)
    (api : Api) :
    api ∈ (b.ComposeDeclaration env pathPrefix).Apis ↔
      ∃ e ∈ b.pathToRoutes pathPrefix, api = b.apiOf env e := by
  rw [ComposeDeclaration_apis, List.mem_map]
  constructor
  · rintro ⟨e, he, rfl⟩
    exact ⟨e, (env.range_perm _ _).mem_iff.mp he, rfl⟩
  · rintro ⟨e, he, rfl⟩
    exact ⟨e, (env.range_perm _ _).mem_iff.mpr he, rfl⟩

theorem operations_of_mem_apis (b : SwaggerApiDeclarationBuilder) (env : Env)
    (pathPrefix : GoString) (api : Api)
    (hapi : api ∈ (b.ComposeDeclaration env pathPrefix).Apis) :
    api.Operations =
      (routesAt b.Service.Routes pathPrefix api.Path).map (b.operationOf env) := by
  obtain ⟨e, he, rfl⟩ := (mem_apis_iff b env pathPrefix api).mp hapi
  have := ((pathToRoutes_grouped b pathPrefix).entries e he).1
  simp only [apiOf]
  rw [this]

theorem forall₂_operations (b : SwaggerApiDeclarationBuilder) (env : Env)
    (pathPrefix : GoString) (api : Api)
    (hapi : api ∈ (b.ComposeDeclaration env pathPrefix).Apis)
    (P : Operation → Route → Prop) (hP : ∀ route, P (b.operationOf env route) route) :
    List.Forall₂ P api.Operations (routesAt b.Service.Routes pathPrefix api.Path) := by
  rw [operations_of_mem_apis b env pathPrefix api hapi, List.forall₂_map_left_iff]
  exact List.forall₂_same.mpr (fun r _ => hP r)

theorem operationOf_eq (b : SwaggerApiDeclarationBuilder) (env : Env) (route : Route) :
    b.operationOf env route =
      { HttpMethod := route.Method
        Summary := route.Doc
        Type_ := match route.WriteSample with
          | none => go "void"
          | some t => responseType b env t
        Nickname := route.Operation
        Consumes := route.Consumes
        Produces := route.Produces
        Parameters := b.Service.PathParameters.map (fun p => asSwaggerParameter env p.Data) ++
          route.ParameterDocs.map (fun p => asSwaggerParameter env p.Data) } := by
  unfold operationOf
  rw [composeOperation_fst, rootParams_eq]

theorem responseType_sequence (b : SwaggerApiDeclarationBuilder) (env : Env) (t : GoType)
    (h : t.Kind = Kind.Slice ∨ t.Kind = Kind.Array) :
    responseType b env t = go "array[" ++ env.keyFrom t.Elem ++ go "]" := by
  simp [responseType, addModelFromSampleTo, h]

theorem responseType_pointer_sequence (b : SwaggerApiDeclarationBuilder) (env : Env) (t : GoType)
    (hp : t.Kind = Kind.Ptr) (h : t.Elem.Kind = Kind.Slice ∨ t.Elem.Kind = Kind.Array) :
    responseType b env t = go "array[" ++ env.keyFrom t.Elem.Elem ++ go "]" := by
  simp [responseType, addModelFromSampleTo, h, hp]

theorem responseType_other (b : SwaggerApiDeclarationBuilder) (env : Env) (t : GoType)
    (h1 : ¬ (t.Kind = Kind.Slice ∨ t.Kind = Kind.Array))
    (h2 : t.Kind = Kind.Ptr → ¬ (t.Elem.Kind = Kind.Slice ∨ t.Elem.Kind = Kind.Array)) :
    responseType b env t = env.keyFrom t := by
  by_cases hp : t.Kind = Kind.Ptr
  · simp [responseType, addModelFromSampleTo, h1, hp, h2 hp]
  · simp [responseType, addModelFromSampleTo, h1, hp]

end SwaggerApiDeclarationBuilder
end swagger

/-! ### Claims on `ComposeDeclaration` -/

namespace swagger
open restful reflect
namespace SwaggerApiDeclarationBuilder

/-- Claim C1. In every Api of a composed declaration, the operations stand one for
one, in order, against the routes of that path, and the parameter list of each
operation is the translated root parameters of the service in declared order
followed by the translated parameters of its route in declared order; its
length is the sum of the two counts. -/
theorem ComposeDeclaration_operation_parameters (b : SwaggerApiDeclarationBuilder) (env : Env)
    (pathPrefix : GoString) (api : Api)
    (hapi : api ∈ (b.ComposeDeclaration env pathPrefix).Apis) :
    List.Forall₂
      (fun (operation : Operation) (route : Route) =>
        operation.Parameters =
          b.Service.PathParameters.map (fun p => asSwaggerParameter env p.Data) ++
            route.ParameterDocs.map (fun p => asSwaggerParameter env p.Data) ∧
        operation.Parameters.length =
          b.Service.PathParameters.length + route.ParameterDocs.length)
      api.Operations (routesAt b.Service.Routes pathPrefix api.Path) := by
  apply forall₂_operations b env pathPrefix api hapi
  intro route
  rw [operationOf_eq]
  simp

/-- Witness of claim C1: the Api of `/books/{id}/reviews` in the books service. -/
theorem ComposeDeclaration_operation_parameters_witness :
    booksBuilder.apiOf exampleEnv (go "/books/{id}/reviews", [addReview]) ∈
        (booksBuilder.ComposeDeclaration exampleEnv (go "/books")).Apis ∧
    List.Forall₂
      (fun (operation : Operation) (route : Route) =>
        operation.Parameters =
          booksBuilder.Service.PathParameters.map (fun p => asSwaggerParameter exampleEnv p.Data) ++
            route.ParameterDocs.map (fun p => asSwaggerParameter exampleEnv p.Data) ∧
        operation.Parameters.length =
          booksBuilder.Service.PathParameters.length + route.ParameterDocs.length)
      (booksBuilder.apiOf exampleEnv (go "/books/{id}/reviews", [addReview])).Operations
      (routesAt booksBuilder.Service.Routes (go "/books")
        (booksBuilder.apiOf exampleEnv (go "/books/{id}/reviews", [addReview])).Path) ∧
    (booksBuilder.apiOf exampleEnv (go "/books/{id}/reviews", [addReview])).Operations.map
      (fun operation => operation.Parameters.map (fun p => (p.Name, p.ParamType))) =
      [[(go "tenant", go "header"), (go "id", go "path"), (go "body", go "body")]] :=
  ⟨by decide, ComposeDeclaration_operation_parameters booksBuilder exampleEnv (go "/books")
    (booksBuilder.apiOf exampleEnv (go "/books/{id}/reviews", [addReview])) (by decide),
   by decide⟩

theorem keys_pathToRoutes (b : SwaggerApiDeclarationBuilder) (pathPrefix p : GoString) :
    p ∈ (b.pathToRoutes pathPrefix).map Prod.fst ↔
      ∃ r ∈ b.Service.Routes, pathPrefix <+: r.Path ∧ r.Path = p := by
  have hg := pathToRoutes_grouped b pathPrefix
  constructor
  · intro hp
    obtain ⟨e, he, rfl⟩ := List.mem_map.mp hp
    obtain ⟨h1, h2⟩ := hg.entries e he
    obtain ⟨r, hr⟩ := List.exists_mem_of_ne_nil _ h2
    rw [h1, routesAt, List.mem_filter] at hr
    simp only [Bool.and_eq_true, decide_eq_true_eq] at hr
    exact ⟨r, hr.1, List.isPrefixOf_iff_prefix.mp hr.2.1, hr.2.2⟩
  · rintro ⟨r, hr, hpre, rfl⟩
    exact hg.covered r hr (List.isPrefixOf_iff_prefix.mpr hpre)

theorem paths_perm_keys (b : SwaggerApiDeclarationBuilder) (env : Env) (pathPrefix : GoString) :
    ((b.ComposeDeclaration env pathPrefix).Apis.map (fun api => api.Path)).Perm
      ((b.pathToRoutes pathPrefix).map Prod.fst) := by
  rw [ComposeDeclaration_apis, List.map_map]
  exact (env.range_perm _ _).map _

/-- Claim C2. The Apis of a composed declaration have pairwise distinct paths; a
path occurs among them exactly when it is the path of a route of the service
that has `pathPrefix` as a plain string prefix; so the Api paths are, up to
order, the distinct paths of the routes that carry the prefix. -/
theorem ComposeDeclaration_paths (b : SwaggerApiDeclarationBuilder) (env : Env)
    (pathPrefix : GoString) :
    ((b.ComposeDeclaration env pathPrefix).Apis.map (fun api => api.Path)).Nodup ∧
    (∀ p, p ∈ (b.ComposeDeclaration env pathPrefix).Apis.map (fun api => api.Path) ↔
      ∃ r ∈ b.Service.Routes, pathPrefix <+: r.Path ∧ r.Path = p) ∧
    ((b.ComposeDeclaration env pathPrefix).Apis.map (fun api => api.Path)).Perm
      ((b.Service.Routes.filter (fun r => strings.HasPrefix r.Path pathPrefix)).map
        (fun r => r.Path)).dedup := by
  have hperm := paths_perm_keys b env pathPrefix
  have hnd : ((b.ComposeDeclaration env pathPrefix).Apis.map (fun api => api.Path)).Nodup :=
    hperm.nodup_iff.mpr (pathToRoutes_grouped b pathPrefix).nodup
  have hmem : ∀ p, p ∈ (b.ComposeDeclaration env pathPrefix).Apis.map (fun api => api.Path) ↔
      ∃ r ∈ b.Service.Routes, pathPrefix <+: r.Path ∧ r.Path = p := by
    intro p
    rw [hperm.mem_iff, keys_pathToRoutes]
  refine ⟨hnd, hmem, ?_⟩
  rw [List.perm_ext_iff_of_nodup hnd (List.nodup_dedup _)]
  intro p
  rw [hmem, List.mem_dedup, List.mem_map]
  constructor
  · rintro ⟨r, hr, hpre, rfl⟩
    exact ⟨r, List.mem_filter.mpr ⟨hr, List.isPrefixOf_iff_prefix.mpr hpre⟩, rfl⟩
  · rintro ⟨r, hr, rfl⟩
    obtain ⟨h1, h2⟩ := List.mem_filter.mp hr
    exact ⟨r, h1, List.isPrefixOf_iff_prefix.mp h2, rfl⟩

/-- Example: three routes with three paths give three Apis. -/
theorem ComposeDeclaration_books_three :
    (booksBuilder.ComposeDeclaration exampleEnv (go "/books")).Apis.map (fun api => api.Path) =
      [go "/books", go "/books/{id}", go "/books/{id}/reviews"] := by
  decide

/-- Example: the prefix test is not segment-aware. -/
theorem ComposeDeclaration_books2_retained :
    (({ booksBuilder with
        Service := { booksBuilder.Service with routes := [listBooks, bareRoute (go "/books2")] } } :
      SwaggerApiDeclarationBuilder).ComposeDeclaration exampleEnv (go "/books")).Apis.map
        (fun api => api.Path) = [go "/books", go "/books2"] := by
  decide

end SwaggerApiDeclarationBuilder
end swagger

namespace swagger
open restful reflect
namespace SwaggerApiDeclarationBuilder

/-- Claim C3. In every Api of a composed declaration, the operation of a route
without write sample has response type "void", whatever its read sample. -/
theorem ComposeDeclaration_void_without_write_sample (b : SwaggerApiDeclarationBuilder)
    (env : Env) (pathPrefix : GoString) (api : Api)
    (hapi : api ∈ (b.ComposeDeclaration env pathPrefix).Apis) :
    List.Forall₂
      (fun (operation : Operation) (route : Route) =>
        route.WriteSample = none → operation.Type_ = go "void")
      api.Operations (routesAt b.Service.Routes pathPrefix api.Path) := by
  apply forall₂_operations b env pathPrefix api hapi
  intro route hw
  rw [operationOf_eq, hw]

/-- Witness of claim C3: the Api of `/books/{id}/reviews`, whose route declares a
read sample and no write sample. -/
theorem ComposeDeclaration_void_without_write_sample_witness :
    booksBuilder.apiOf exampleEnv (go "/books/{id}/reviews", [addReview]) ∈
        (booksBuilder.ComposeDeclaration exampleEnv (go "/books")).Apis ∧
    List.Forall₂
      (fun (operation : Operation) (route : Route) =>
        route.WriteSample = none → operation.Type_ = go "void")
      (booksBuilder.apiOf exampleEnv (go "/books/{id}/reviews", [addReview])).Operations
      (routesAt booksBuilder.Service.Routes (go "/books")
        (booksBuilder.apiOf exampleEnv (go "/books/{id}/reviews", [addReview])).Path) ∧
    addReview.ReadSample ≠ none ∧ addReview.WriteSample = none ∧
    (booksBuilder.apiOf exampleEnv (go "/books/{id}/reviews", [addReview])).Operations.map
      (fun operation => operation.Type_) = [go "void"] :=
  ⟨by decide, ComposeDeclaration_void_without_write_sample booksBuilder exampleEnv (go "/books")
    (booksBuilder.apiOf exampleEnv (go "/books/{id}/reviews", [addReview])) (by decide),
   by decide, by decide, by decide⟩

/-- Claim C4. In every Api of a composed declaration, the operation of a route whose
write sample is a sequence of `X` (kind slice or array with element type `X`),
or a pointer to such a sequence, has response type "array[" + keyFrom(X) + "]":
the name is derived from the element type and both shapes resolve alike. -/
theorem ComposeDeclaration_array_response (b : SwaggerApiDeclarationBuilder)
    (env : Env) (pathPrefix : GoString) (api : Api)
    (hapi : api ∈ (b.ComposeDeclaration env pathPrefix).Apis) :
    List.Forall₂
      (fun (operation : Operation) (route : Route) =>
        ∀ t X : GoType, route.WriteSample = some t →
          (((t.Kind = Kind.Slice ∨ t.Kind = Kind.Array) ∧ t.Elem = X) ∨
           (t.Kind = Kind.Ptr ∧ (t.Elem.Kind = Kind.Slice ∨ t.Elem.Kind = Kind.Array) ∧
              t.Elem.Elem = X)) →
          operation.Type_ = go "array[" ++ env.keyFrom X ++ go "]")
      api.Operations (routesAt b.Service.Routes pathPrefix api.Path) := by
  apply forall₂_operations b env pathPrefix api hapi
  intro route t X hw hshape
  rw [operationOf_eq, hw]
  rcases hshape with ⟨hk, rfl⟩ | ⟨hp, hk, rfl⟩
  · exact responseType_sequence b env t hk
  · exact responseType_pointer_sequence b env t hp hk

/-- Witness of claim C4: the Api of `/books`, whose route answers a slice of books. -/
theorem ComposeDeclaration_array_response_witness :
    booksBuilder.apiOf exampleEnv (go "/books", [listBooks]) ∈
        (booksBuilder.ComposeDeclaration exampleEnv (go "/books")).Apis ∧
    List.Forall₂
      (fun (operation : Operation) (route : Route) =>
        ∀ t X : GoType, route.WriteSample = some t →
          (((t.Kind = Kind.Slice ∨ t.Kind = Kind.Array) ∧ t.Elem = X) ∨
           (t.Kind = Kind.Ptr ∧ (t.Elem.Kind = Kind.Slice ∨ t.Elem.Kind = Kind.Array) ∧
              t.Elem.Elem = X)) →
          operation.Type_ = go "array[" ++ exampleEnv.keyFrom X ++ go "]")
      (booksBuilder.apiOf exampleEnv (go "/books", [listBooks])).Operations
      (routesAt booksBuilder.Service.Routes (go "/books")
        (booksBuilder.apiOf exampleEnv (go "/books", [listBooks])).Path) ∧
    listBooks.WriteSample = some (.slice bookType) ∧
    (booksBuilder.apiOf exampleEnv (go "/books", [listBooks])).Operations.map
      (fun operation => operation.Type_) = [go "array[main.Book]"] :=
  ⟨by decide, ComposeDeclaration_array_response booksBuilder exampleEnv (go "/books")
    (booksBuilder.apiOf exampleEnv (go "/books", [listBooks])) (by decide),
   by decide, by decide⟩

/-- The four sequence shapes on constructors: a slice of `X`, an array of `X`, a
pointer to a slice of `X` and a pointer to an array of `X` all get the response
type "array[" + keyFrom(X) + "]". -/
theorem responseType_shapes (b : SwaggerApiDeclarationBuilder) (env : Env) (X : GoType)
    (n : Nat) :
    responseType b env (.slice X) = go "array[" ++ env.keyFrom X ++ go "]" ∧
    responseType b env (.array n X) = go "array[" ++ env.keyFrom X ++ go "]" ∧
    responseType b env (.ptr (.slice X)) = go "array[" ++ env.keyFrom X ++ go "]" ∧
    responseType b env (.ptr (.array n X)) = go "array[" ++ env.keyFrom X ++ go "]" :=
  ⟨responseType_sequence b env _ (Or.inl rfl), responseType_sequence b env _ (Or.inr rfl),
   responseType_pointer_sequence b env _ rfl (Or.inl rfl),
   responseType_pointer_sequence b env _ rfl (Or.inr rfl)⟩

/-- Counterexample to claim C5: the route `GET /books/{id}` answers a `*main.Book`;
its operation gets the response type "*main.Book", the name of the pointer
type, and not "main.Book", the name derived from the pointed-to type. -/
theorem ComposeDeclaration_pointer_not_unwrapped :
    (booksBuilder.ComposeDeclaration exampleEnv (go "/books")).Apis.map
        (fun api => (api.Path, api.Operations.map (fun operation => operation.Type_))) =
      [(go "/books", [go "array[main.Book]"]), (go "/books/{id}", [go "*main.Book"]),
       (go "/books/{id}/reviews", [go "void"])] ∧
    getBook.WriteSample = some (.ptr bookType) ∧
    bookType.Kind ≠ Kind.Slice ∧ bookType.Kind ≠ Kind.Array ∧
    exampleEnv.keyFrom bookType = go "main.Book" ∧
    go "*main.Book" ≠ exampleEnv.keyFrom bookType := by
  decide

/-- Claim C5, amended. In every Api of a composed declaration, the operation of a
route whose write sample is a pointer to a type that is not a slice or array
has as response type the name derived from the pointer type itself, not
wrapped in "array[...]": the pointer is not unwrapped. -/
theorem ComposeDeclaration_pointer_response (b : SwaggerApiDeclarationBuilder)
    (env : Env) (pathPrefix : GoString) (api : Api)
    (hapi : api ∈ (b.ComposeDeclaration env pathPrefix).Apis) :
    List.Forall₂
      (fun (operation : Operation) (route : Route) =>
        ∀ t : GoType, route.WriteSample = some t → t.Kind = Kind.Ptr →
          ¬ (t.Elem.Kind = Kind.Slice ∨ t.Elem.Kind = Kind.Array) →
          operation.Type_ = env.keyFrom t)
      api.Operations (routesAt b.Service.Routes pathPrefix api.Path) := by
  apply forall₂_operations b env pathPrefix api hapi
  intro route t hw hp hk
  rw [operationOf_eq, hw]
  exact responseType_other b env t (by rw [hp]; decide) (fun _ => hk)

/-- Witness of claim C5 as amended: the Api of `/books/{id}`. -/
theorem ComposeDeclaration_pointer_response_witness :
    booksBuilder.apiOf exampleEnv (go "/books/{id}", [getBook]) ∈
        (booksBuilder.ComposeDeclaration exampleEnv (go "/books")).Apis ∧
    List.Forall₂
      (fun (operation : Operation) (route : Route) =>
        ∀ t : GoType, route.WriteSample = some t → t.Kind = Kind.Ptr →
          ¬ (t.Elem.Kind = Kind.Slice ∨ t.Elem.Kind = Kind.Array) →
          operation.Type_ = exampleEnv.keyFrom t)
      (booksBuilder.apiOf exampleEnv (go "/books/{id}", [getBook])).Operations
      (routesAt booksBuilder.Service.Routes (go "/books")
        (booksBuilder.apiOf exampleEnv (go "/books/{id}", [getBook])).Path) ∧
    (booksBuilder.apiOf exampleEnv (go "/books/{id}", [getBook])).Operations.map
      (fun operation => operation.Type_) = [exampleEnv.keyFrom (.ptr bookType)] :=
  ⟨by decide, ComposeDeclaration_pointer_response booksBuilder exampleEnv (go "/books")
    (booksBuilder.apiOf exampleEnv (go "/books/{id}", [getBook])) (by decide),
   by decide⟩

end SwaggerApiDeclarationBuilder
end swagger

/-! ### Claims on `staticPathFromRoute` -/

theorem List.first_occurrence {α : Type} [DecidableEq α] (a : α) (l : List α) (h : a ∈ l) :
    ∃ pre rest, l = pre ++ a :: rest ∧ a ∉ pre := by
  induction l with
  | nil => simp at h
  | cons x xs ih =>
    by_cases hx : x = a
    · exact ⟨[], xs, by simp [hx], by simp⟩
    · have hmem : a ∈ xs := by
        rcases List.mem_cons.mp h with e | e
        · exact absurd e.symm hx
        · exact e
      obtain ⟨pre, rest, hl, hpre⟩ := ih hmem
      refine ⟨x :: pre, rest, by simp [hl], ?_⟩
      intro hc
      rcases List.mem_cons.mp hc with e | e
      · exact hx e.symm
      · exact hpre e

namespace swagger
open restful reflect
namespace SwaggerApiDeclarationBuilder

/-- Claim C6. When the first '{' of the path is at an index greater than 1 (the path
is `pre ++ "{" ++ rest` with no '{' in `pre` and `pre` longer than 1), the
static path is `pre` with one trailing "/" removed if present, and it contains
no '{'. -/
theorem staticPathFromRoute_static_part (b : SwaggerApiDeclarationBuilder) (r : Route)
    (pre rest : GoString) (hpath : r.Path = pre ++ go "\x7b" ++ rest)
    (hpre : (0x7b : UInt8) ∉ pre) (hlen : 1 < pre.length) :
    b.staticPathFromRoute r = (if go "/" <:+ pre then pre.dropLast else pre) ∧
    (0x7b : UInt8) ∉ b.staticPathFromRoute r := by
  have h := staticPathFromRoute_of_bracket b r pre rest hpath hpre
  rw [if_neg (by omega)] at h
  refine ⟨h, ?_⟩
  rw [h]
  split
  · exact fun hc => hpre (List.dropLast_subset pre hc)
  · exact hpre

/-- Witness of claim C6: `/a/{x}` has the static path `/a`. -/
theorem staticPathFromRoute_static_part_witness :
    (bareRoute (go "/a/{x}")).Path = go "/a/" ++ go "\x7b" ++ go "x\x7d" ∧
    (0x7b : UInt8) ∉ go "/a/" ∧ 1 < (go "/a/").length ∧
    (rootlessBuilder.staticPathFromRoute (bareRoute (go "/a/{x}")) =
        (if go "/" <:+ go "/a/" then (go "/a/").dropLast else go "/a/") ∧
      (0x7b : UInt8) ∉ rootlessBuilder.staticPathFromRoute (bareRoute (go "/a/{x}"))) :=
  ⟨by decide, by decide, by decide,
   staticPathFromRoute_static_part rootlessBuilder (bareRoute (go "/a/{x}")) (go "/a/") (go "x\x7d")
     (by decide) (by decide) (by decide)⟩

/-- Example: both routes of the rootless service have the static
path `/a`. -/
theorem staticPathFromRoute_examples :
    rootlessBuilder.Service.Routes.map rootlessBuilder.staticPathFromRoute =
      [go "/a", go "/a"] := by
  decide

/-- Claim C7. For a non-empty path: when the first '{' is at index 0 or 1 the static
path is the raw path, and in every case the static path is non-empty. -/
theorem staticPathFromRoute_nonempty (b : SwaggerApiDeclarationBuilder) (r : Route)
    (hne : r.Path ≠ []) :
    (∀ pre rest : GoString, r.Path = pre ++ go "\x7b" ++ rest → (0x7b : UInt8) ∉ pre →
        pre.length ≤ 1 → b.staticPathFromRoute r = r.Path) ∧
    b.staticPathFromRoute r ≠ [] := by
  constructor
  · intro pre rest hpath hpre hlen
    rw [staticPathFromRoute_of_bracket b r pre rest hpath hpre, if_pos hlen]
  · by_cases hmem : (0x7b : UInt8) ∈ r.Path
    · obtain ⟨pre, rest, hpath, hpre⟩ := List.first_occurrence _ _ hmem
      have hpath' : r.Path = pre ++ go "\x7b" ++ rest := by
        rw [hpath, strings.go_bracket]; simp
      rw [staticPathFromRoute_of_bracket b r pre rest hpath' hpre]
      by_cases hlen : pre.length ≤ 1
      · rw [if_pos hlen]; exact hne
      · rw [if_neg hlen]
        split
        · intro hc
          have := congrArg List.length hc
          simp at this
          omega
        · intro hc
          rw [hc] at hlen
          simp at hlen
    · rw [staticPathFromRoute_no_bracket b r hmem]
      exact hne

/-- Witness of claim C7: the path `{onlyParam}`. -/
theorem staticPathFromRoute_nonempty_witness :
    (bareRoute (go "{onlyParam}")).Path ≠ [] ∧
    ((∀ pre rest : GoString, (bareRoute (go "{onlyParam}")).Path = pre ++ go "\x7b" ++ rest →
        (0x7b : UInt8) ∉ pre → pre.length ≤ 1 →
        rootlessBuilder.staticPathFromRoute (bareRoute (go "{onlyParam}")) =
          (bareRoute (go "{onlyParam}")).Path) ∧
      rootlessBuilder.staticPathFromRoute (bareRoute (go "{onlyParam}")) ≠ []) :=
  ⟨by decide, staticPathFromRoute_nonempty rootlessBuilder (bareRoute (go "{onlyParam}"))
    (by decide)⟩

/-- Examples: `{onlyParam}` and `/{id}` are returned unchanged. -/
theorem staticPathFromRoute_all_parameter :
    rootlessBuilder.staticPathFromRoute (bareRoute (go "{onlyParam}")) = go "{onlyParam}" ∧
    rootlessBuilder.staticPathFromRoute (bareRoute (go "/{id}")) = go "/{id}" := by
  decide

end SwaggerApiDeclarationBuilder
end swagger

/-! ### Claims on `ApiDeclaration` and `asSwaggerParameter` -/

theorem List.foldl_last_wins {α β : Type} (f : α → β) (l : List α) (init : β) :
    l.foldl (fun _ x => f x) init = (l.getLast?.map f).getD init := by
  induction l generalizing init with
  | nil => rfl
  | cons x xs ih =>
    rw [List.foldl_cons, ih]
    cases xs with
    | nil => rfl
    | cons y ys =>
      obtain ⟨z, hz⟩ : ∃ z, (y :: ys).getLast? = some z :=
        ⟨_, List.getLast?_eq_getLast _ (by simp)⟩
      simp [List.getLast?_cons_cons, hz]

namespace swagger
open restful reflect
namespace SwaggerApiDeclarationBuilder

/-- What `ApiDeclaration` returns for a service without fixed root: the empty
key, and the declaration composed for the static path of the last route (the
zero declaration when there is no route). -/
theorem ApiDeclaration_rootless (b : SwaggerApiDeclarationBuilder) (env : Env)
    (hroot : b.Service.RootPath = go "" ∨ b.Service.RootPath = go "/") :
    b.ApiDeclaration env =
      (go "",
       (b.Service.Routes.getLast?.map
         (fun route => b.ComposeDeclaration env (b.staticPathFromRoute route))).getD {}) := by
  unfold ApiDeclaration
  simp only [if_pos hroot]
  rw [List.foldl_last_wins (fun route => b.ComposeDeclaration env (b.staticPathFromRoute route))]

/-- Claim C8, the code at the failing input. For the service without root path and
with the routes `/a/{x}` and `/a/{y}/extra`, `ApiDeclaration` returns the
declaration composed for `/a`, the static path of the last route, but the empty
string as key. -/
theorem ApiDeclaration_rootless_key_empty :
    rootlessBuilder.Service.RootPath = go "" ∧
    rootlessBuilder.Service.Routes.getLast? = some (bareRoute (go "/a/{y}/extra")) ∧
    rootlessBuilder.staticPathFromRoute (bareRoute (go "/a/{y}/extra")) = go "/a" ∧
    (rootlessBuilder.ApiDeclaration exampleEnv).2 =
      rootlessBuilder.ComposeDeclaration exampleEnv (go "/a") ∧
    (rootlessBuilder.ApiDeclaration exampleEnv).1 = go "" ∧
    (rootlessBuilder.ApiDeclaration exampleEnv).1 ≠ go "/a" := by
  decide

/-- Claim C9. For a service whose root path is neither empty nor "/", the key is the
root path and the declaration is the one composed for the root path, whatever
the routes. -/
theorem ApiDeclaration_rooted (b : SwaggerApiDeclarationBuilder) (env : Env)
    (hne : b.Service.RootPath ≠ go "") (hslash : b.Service.RootPath ≠ go "/") :
    b.ApiDeclaration env =
      (b.Service.RootPath, b.ComposeDeclaration env b.Service.RootPath) := by
  unfold ApiDeclaration
  have : ¬ (b.Service.RootPath = go "" ∨ b.Service.RootPath = go "/") := by
    rintro (h | h)
    · exact hne h
    · exact hslash h
  simp only [if_neg this]

/-- Witness of claim C9: the books service, rooted at `/books`. -/
theorem ApiDeclaration_rooted_witness :
    booksBuilder.Service.RootPath ≠ go "" ∧ booksBuilder.Service.RootPath ≠ go "/" ∧
    booksBuilder.ApiDeclaration exampleEnv =
      (booksBuilder.Service.RootPath,
       booksBuilder.ComposeDeclaration exampleEnv booksBuilder.Service.RootPath) :=
  ⟨by decide, by decide, ApiDeclaration_rooted booksBuilder exampleEnv (by decide) (by decide)⟩

end SwaggerApiDeclarationBuilder

/-- Claim C10. `asSwaggerParameter` copies Name, Description and Required, sets Type
and DataType to the DataType of the descriptor, leaves Format empty and sets
ParamType through `asParamType`; with pairwise distinct kind constants,
`asParamType` maps the five kinds to "path", "query", "body", "header", "form",
which are pairwise distinct, and every other kind to the empty string. -/
theorem asSwaggerParameter_fields (env : Env)
    (hkinds : [env.PathParameterKind, env.QueryParameterKind, env.BodyParameterKind,
      env.HeaderParameterKind, env.FormParameterKind].Nodup) (param : ParameterData) :
    asSwaggerParameter env param =
      { Name := param.Name, Description := param.Description,
        ParamType := asParamType env param.Kind, Type_ := param.DataType,
        DataType := param.DataType, Format := go "", Required := param.Required } ∧
    asParamType env env.PathParameterKind = go "path" ∧
    asParamType env env.QueryParameterKind = go "query" ∧
    asParamType env env.BodyParameterKind = go "body" ∧
    asParamType env env.HeaderParameterKind = go "header" ∧
    asParamType env env.FormParameterKind = go "form" ∧
    [go "path", go "query", go "body", go "header", go "form", go ""].Nodup ∧
    (∀ kind : Int, kind ∉ [env.PathParameterKind, env.QueryParameterKind,
        env.BodyParameterKind, env.HeaderParameterKind, env.FormParameterKind] →
      asParamType env kind = go "") := by
  simp only [List.nodup_cons, List.mem_cons, List.mem_singleton, not_or, List.not_mem_nil,
    not_false_eq_true, List.nodup_nil, and_true] at hkinds
  obtain ⟨⟨h12, h13, h14, h15⟩, ⟨h23, h24, h25⟩, ⟨h34, h35⟩, h45⟩ := hkinds
  refine ⟨rfl, ?_, ?_, ?_, ?_, ?_, by decide, ?_⟩
  · simp [asParamType]
  · simp [asParamType, Ne.symm h12]
  · simp [asParamType, Ne.symm h13, Ne.symm h23]
  · simp [asParamType, Ne.symm h14, Ne.symm h24, Ne.symm h34]
  · simp [asParamType, Ne.symm h15, Ne.symm h25, Ne.symm h35, Ne.symm h45]
  · intro kind hk
    simp only [List.mem_cons, List.mem_singleton, not_or, List.not_mem_nil, or_false] at hk
    obtain ⟨k1, k2, k3, k4, k5⟩ := hk
    simp [asParamType, k1, k2, k3, k4, k5]

/-- Witness of claim C10: the kinds numbered 0 to 4 and a path parameter. -/
theorem asSwaggerParameter_fields_witness :
    [exampleEnv.PathParameterKind, exampleEnv.QueryParameterKind, exampleEnv.BodyParameterKind,
      exampleEnv.HeaderParameterKind, exampleEnv.FormParameterKind].Nodup ∧
    asSwaggerParameter exampleEnv ⟨go "id", go "book id", go "string", 0, true⟩ =
      { Name := go "id", Description := go "book id", ParamType := go "path",
        Type_ := go "string", DataType := go "string", Format := go "", Required := true } :=
  ⟨by decide,
   ((asSwaggerParameter_fields exampleEnv (by decide)
      ⟨go "id", go "book id", go "string", 0, true⟩).1).trans (by decide)⟩

end swagger

/-! ### Claims on `composeRootPath` and the registry -/

namespace swagger
open restful reflect

theorem go_names :
    go "a" = [97] ∧ go "b" = [98] ∧ go "c" = [99] ∧ go "d" = [100] ∧ go "e" = [101] ∧
    go "f" = [102] ∧ go "g" = [103] := by
  decide

/-- The path that `composeRootPath` builds from seven segments: the first one
always, then the following ones up to the first empty one. -/
theorem composeRootPath_eq (req : Request) :
    composeRootPath req =
      go "/" ++ (go "/").intercalate
        (req.PathParameter (go "a") ::
          ([go "b", go "c", go "d", go "e", go "f", go "g"].map req.PathParameter).takeWhile
            (fun s => decide (s ≠ []))) := by
  unfold composeRootPath
  simp only [List.map_cons, List.map_nil, strings.go_empty]
  generalize req.PathParameter (go "a") = a
  generalize req.PathParameter (go "b") = b
  generalize req.PathParameter (go "c") = c
  generalize req.PathParameter (go "d") = d
  generalize req.PathParameter (go "e") = e
  generalize req.PathParameter (go "f") = f
  generalize req.PathParameter (go "g") = g
  by_cases hb : b = []
  · simp [hb, List.intercalate, List.takeWhile]
  by_cases hc : c = []
  · simp [hb, hc, List.intercalate, List.takeWhile]
  by_cases hd : d = []
  · simp [hb, hc, hd, List.intercalate, List.takeWhile]
  by_cases he : e = []
  · simp [hb, hc, hd, he, List.intercalate, List.takeWhile]
  by_cases hf : f = []
  · simp [hb, hc, hd, he, hf, List.intercalate, List.takeWhile]
  by_cases hg : g = []
  · simp [hb, hc, hd, he, hf, hg, List.intercalate, List.takeWhile]
  · simp [hb, hc, hd, he, hf, hg, List.intercalate, List.takeWhile]

end swagger

namespace swagger
open restful reflect

/-- Counterexample to claim C11: with an empty first segment and "x" captured
as `b`, the longest initial run of non-empty segments is empty, so the claim
gives "/", while `composeRootPath` returns "//x": the first segment is never
tested. -/
theorem composeRootPath_empty_first_segment :
    segmentsOf ⟨[(go "b", go "x")]⟩ = [go "", go "x", go "", go "", go "", go "", go ""] ∧
    go "/" ++ (go "/").intercalate
        ((segmentsOf ⟨[(go "b", go "x")]⟩).takeWhile (fun s => decide (s ≠ []))) = go "/" ∧
    composeRootPath ⟨[(go "b", go "x")]⟩ = go "//x" ∧
    composeRootPath ⟨[(go "b", go "x")]⟩ ≠
      go "/" ++ (go "/").intercalate
        ((segmentsOf ⟨[(go "b", go "x")]⟩).takeWhile (fun s => decide (s ≠ []))) := by
  decide

/-- Claim C11, amended. `composeRootPath` returns "/" followed by the segments
joined with "/" of: the first segment, taken as it is, and then the longest
initial run of non-empty segments among the six that follow; segments after the
first empty one of these are omitted. With a non-empty first segment this is
"/" followed by the longest initial run of non-empty segments joined with "/". -/
theorem composeRootPath_segments (req : Request) :
    composeRootPath req =
      go "/" ++ (go "/").intercalate
        ((segmentsOf req).headD [] :: ((segmentsOf req).tail.takeWhile (fun s => decide (s ≠ [])))) ∧
    ((segmentsOf req).headD [] ≠ [] →
      composeRootPath req =
        go "/" ++ (go "/").intercalate
          ((segmentsOf req).takeWhile (fun s => decide (s ≠ [])))) := by
  have h := composeRootPath_eq req
  refine ⟨?_, ?_⟩
  · rw [h]; rfl
  · intro ha
    rw [h]
    have : segmentsOf req = req.PathParameter (go "a") ::
        [go "b", go "c", go "d", go "e", go "f", go "g"].map req.PathParameter := rfl
    rw [this] at ha ⊢
    have ha' : req.PathParameter (go "a") ≠ [] := ha
    simp [List.takeWhile, ha']

end swagger

namespace swagger
open restful reflect

theorem composeRootPath_requestOf (ss : List GoString) (hlow : 1 ≤ ss.length)
    (hhigh : ss.length ≤ 7) (hne : ∀ s ∈ ss, s ≠ []) :
    composeRootPath (requestOf ss) = go "/" ++ (go "/").intercalate ss := by
  rw [composeRootPath_eq]
  obtain ⟨ha, hb, hc, hd, he, hf, hg⟩ := go_names
  rcases ss with _ | ⟨s1, _ | ⟨s2, _ | ⟨s3, _ | ⟨s4, _ | ⟨s5, _ | ⟨s6, _ | ⟨s7, _ | ⟨s8, ss⟩⟩⟩⟩⟩⟩⟩⟩
  · simp at hlow
  all_goals first
    | (simp at hhigh; done)
    | (simp only [List.mem_cons, List.mem_singleton, forall_eq_or_imp, forall_eq,
          List.not_mem_nil, false_imp_iff, implies_true, and_true] at hne
       simp [requestOf, Request.PathParameter, GoMap.lookup, ha, hb, hc, hd, he, hf, hg,
          strings.go_empty, List.takeWhile, hne])

end swagger

namespace GoMap

theorem lookup_assign_ne {α : Type} (m : GoMap α) (k k' : GoString) (v zero : α)
    (h : k' ≠ k) : GoMap.lookup (GoMap.assign m k v) k' zero = GoMap.lookup m k' zero := by
  induction m with
  | nil => simp [GoMap.assign, GoMap.lookup, Ne.symm h]
  | cons e rest ih =>
    obtain ⟨k₀, v₀⟩ := e
    by_cases hk : k₀ = k
    · subst hk
      simp [GoMap.assign, GoMap.lookup, Ne.symm h]
    · by_cases hk' : k₀ = k'
      · subst hk'
        simp [GoMap.assign, GoMap.lookup, hk]
      · simp [GoMap.assign, GoMap.lookup, hk, hk', ih]

theorem lookup_assign_self {α : Type} (m : GoMap α) (k : GoString) (v zero : α) :
    GoMap.lookup (GoMap.assign m k v) k zero = v := by
  induction m with
  | nil => simp [GoMap.assign, GoMap.lookup]
  | cons e rest ih =>
    obtain ⟨k₀, v₀⟩ := e
    by_cases hk : k₀ = k
    · simp [GoMap.assign, GoMap.lookup, hk]
    · simp [GoMap.assign, GoMap.lookup, hk, ih]

end GoMap

namespace swagger
open restful reflect

/-- Claim C12. For one to seven non-empty segments captured in order as a, b,
..., `composeRootPath` returns "/" followed by the segments joined with "/";
so a declaration stored in the registry under that path is the one
`getDeclarations` returns. Slash-freeness of the segments is not needed. -/
theorem composeRootPath_round_trip (ss : List GoString) (hlow : 1 ≤ ss.length)
    (hhigh : ss.length ≤ 7) (hne : ∀ s ∈ ss, s ≠ []) :
    composeRootPath (requestOf ss) = go "/" ++ (go "/").intercalate ss ∧
    ∀ (sws : SwaggerService) (decl : swagger.ApiDeclaration),
      (sws.apiDeclarationMap.map Prod.fst).Nodup →
      (go "/" ++ (go "/").intercalate ss, decl) ∈ sws.apiDeclarationMap →
      sws.getDeclarations (requestOf ss) = decl := by
  have h := composeRootPath_requestOf ss hlow hhigh hne
  refine ⟨h, ?_⟩
  intro sws decl hnd hmem
  unfold SwaggerService.getDeclarations
  rw [h]
  exact GoMap.lookup_of_mem _ _ _ _ hnd hmem

/-- Witness of claim C12: the three segments of `/books/v1/reviews`. -/
theorem composeRootPath_round_trip_witness :
    1 ≤ [go "books", go "v1", go "reviews"].length ∧
    [go "books", go "v1", go "reviews"].length ≤ 7 ∧
    (∀ s ∈ [go "books", go "v1", go "reviews"], s ≠ []) ∧
    composeRootPath (requestOf [go "books", go "v1", go "reviews"]) = go "/books/v1/reviews" :=
  ⟨by decide, by decide, by decide,
   ((composeRootPath_round_trip [go "books", go "v1", go "reviews"] (by decide) (by decide)
      (by decide)).1).trans (by decide)⟩

/-- Claim C20. The key `composeRootPath` returns is non-empty and begins with
"/"; so for a key that does not begin with "/", what is stored under it has no
effect on what `getDeclarations` returns, for any request. -/
theorem composeRootPath_leading_slash (k : GoString) (hk : ¬ go "/" <+: k) :
    (∀ req : Request, composeRootPath req ≠ [] ∧ go "/" <+: composeRootPath req ∧
      composeRootPath req ≠ k) ∧
    ∀ (sws : SwaggerService) (decl : swagger.ApiDeclaration) (req : Request),
      SwaggerService.getDeclarations
          { sws with apiDeclarationMap := GoMap.assign sws.apiDeclarationMap k decl } req =
        sws.getDeclarations req := by
  have hpre : ∀ req : Request, go "/" <+: composeRootPath req := by
    intro req
    rw [composeRootPath_eq]
    exact List.prefix_append _ _
  have hne : ∀ req : Request, composeRootPath req ≠ k := by
    intro req h
    exact hk (h ▸ hpre req)
  refine ⟨fun req => ⟨?_, hpre req, hne req⟩, ?_⟩
  · intro h
    have := hpre req
    rw [h] at this
    exact absurd this (by decide)
  · intro sws decl req
    unfold SwaggerService.getDeclarations
    exact GoMap.lookup_assign_ne _ _ _ _ _ (hne req)

/-- Witness of claim C20: the empty key. -/
theorem composeRootPath_leading_slash_witness :
    ¬ go "/" <+: go "" ∧
    ((∀ req : Request, composeRootPath req ≠ [] ∧ go "/" <+: composeRootPath req ∧
      composeRootPath req ≠ go "") ∧
    ∀ (sws : SwaggerService) (decl : swagger.ApiDeclaration) (req : Request),
      SwaggerService.getDeclarations
          { sws with apiDeclarationMap := GoMap.assign sws.apiDeclarationMap (go "") decl } req =
        sws.getDeclarations req) :=
  ⟨by decide, composeRootPath_leading_slash (go "") (by decide)⟩

end swagger

namespace GoMap

theorem mem_foldl_assign {α : Type} (pairs : List (GoString × α)) :
    ∀ (m : GoMap α), (m.map Prod.fst).Nodup → ∀ (k : GoString) (v : α),
      ((k, v) ∈ pairs.foldl (fun m p => GoMap.assign m p.1 p.2) m ↔
        (∃ l₁ l₂, pairs = l₁ ++ (k, v) :: l₂ ∧ ∀ p ∈ l₂, p.1 ≠ k) ∨
        ((k, v) ∈ m ∧ ∀ p ∈ pairs, p.1 ≠ k)) ∧
      ((pairs.foldl (fun m p => GoMap.assign m p.1 p.2) m).map Prod.fst).Nodup := by
  induction pairs with
  | nil =>
    intro m hnd k v
    simp [hnd]
  | cons p ps ih =>
    intro m hnd k v
    have hnd' := GoMap.nodup_keys_assign m p.1 p.2 hnd
    obtain ⟨h1, h2⟩ := ih (GoMap.assign m p.1 p.2) hnd' k v
    refine ⟨?_, h2⟩
    rw [List.foldl_cons, h1, GoMap.mem_assign _ _ _ hnd]
    constructor
    · rintro (⟨l₁, l₂, rfl, hl⟩ | ⟨hp | ⟨hm, hne⟩, hps⟩)
      · exact Or.inl ⟨p :: l₁, l₂, rfl, hl⟩
      · refine Or.inl ⟨[], ps, ?_, hps⟩
        rw [hp]; rfl
      · refine Or.inr ⟨hm, ?_⟩
        intro q hq
        rcases List.mem_cons.mp hq with rfl | hq
        · exact fun e => hne e.symm
        · exact hps q hq
    · rintro (⟨l₁, l₂, hl, hne⟩ | ⟨hm, hne⟩)
      · cases l₁ with
        | nil =>
          simp only [List.nil_append, List.cons.injEq] at hl
          obtain ⟨rfl, rfl⟩ := hl
          exact Or.inr ⟨Or.inl rfl, hne⟩
        | cons q l₁ =>
          simp only [List.cons_append, List.cons.injEq] at hl
          obtain ⟨rfl, rfl⟩ := hl
          exact Or.inl ⟨l₁, l₂, rfl, hne⟩
      · refine Or.inr ⟨Or.inr ⟨hm, ?_⟩, fun q hq => hne q (List.mem_cons_of_mem _ hq)⟩
        exact fun e => hne p (List.mem_cons_self _ _) e.symm

end GoMap

namespace swagger
open restful reflect

theorem foldl_registerStep (env : Env) (config : Config) (services : List WebService) :
    ∀ sws : SwaggerService,
      (services.foldl (registerStep env config) sws).apiDeclarationMap =
        ((services.filter (fun ws => decide (ws.RootPath ≠ config.ApiPath))).map
          (fun ws => SwaggerApiDeclarationBuilder.ApiDeclaration
            { Config := config, Service := ws } env)).foldl
          (fun m p => GoMap.assign m p.1 p.2) sws.apiDeclarationMap := by
  induction services with
  | nil => intro sws; rfl
  | cons ws rest ih =>
    intro sws
    rw [List.foldl_cons, ih]
    by_cases h : ws.RootPath = config.ApiPath
    · simp [registerStep, h]
    · simp [registerStep, h]

/-- Claim C13. The registry `RegisterSwaggerService` builds is obtained by
storing, in the order of `config.WebServices`, the key/declaration pair that
`ApiDeclaration` returns for each service whose root path differs from
`config.ApiPath`: its keys are distinct, and a pair is in it exactly when it is
the last of those pairs with its key. A service whose root path equals
`config.ApiPath` is filtered out and contributes nothing. -/
theorem RegisterSwaggerService_registry (env : Env) (config : Config) :
    (RegisterSwaggerService env config).apiDeclarationMap =
      ((config.WebServices.filter (fun ws => decide (ws.RootPath ≠ config.ApiPath))).map
        (fun ws => SwaggerApiDeclarationBuilder.ApiDeclaration
          { Config := config, Service := ws } env)).foldl
        (fun m p => GoMap.assign m p.1 p.2) [] ∧
    ((RegisterSwaggerService env config).apiDeclarationMap.map Prod.fst).Nodup ∧
    ∀ (k : GoString) (decl : swagger.ApiDeclaration),
      (k, decl) ∈ (RegisterSwaggerService env config).apiDeclarationMap ↔
        ∃ l₁ l₂,
          (config.WebServices.filter (fun ws => decide (ws.RootPath ≠ config.ApiPath))).map
            (fun ws => SwaggerApiDeclarationBuilder.ApiDeclaration
              { Config := config, Service := ws } env) = l₁ ++ (k, decl) :: l₂ ∧
          ∀ p ∈ l₂, p.1 ≠ k := by
  have h : (RegisterSwaggerService env config).apiDeclarationMap = _ :=
    foldl_registerStep env config config.WebServices (newSwaggerService config)
  simp only [newSwaggerService] at h
  refine ⟨h, ?_, ?_⟩
  · rw [h]
    exact (GoMap.mem_foldl_assign _ [] (by simp) [] {}).2
  · intro k decl
    rw [h, (GoMap.mem_foldl_assign _ [] (by simp) k decl).1]
    simp

end swagger

namespace swagger
open restful reflect

/-- Example: of the three configured services, the one at the documentation
path is skipped, the books service is stored under `/books` and the rootless
one under the empty key. -/
theorem RegisterSwaggerService_example :
    (RegisterSwaggerService exampleEnv exampleConfig).apiDeclarationMap.map Prod.fst =
      [go "/books", go ""] := by
  decide

theorem getListing_apis (sws : SwaggerService) (env : Env) :
    (sws.getListing env).Apis =
      (env.range swagger.ApiDeclaration sws.apiDeclarationMap).map apiRefOf := by
  have key : ∀ (entries : List (GoString × swagger.ApiDeclaration)) (listing : ResourceListing),
      (entries.foldl
        (fun (listing : ResourceListing) (entry : GoString × swagger.ApiDeclaration) =>
          let k := entry.1
          let v := entry.2
          let ref : ApiRef := { Path := k }
          let ref : ApiRef :=
            if v.Apis.length > 0 then { ref with Description := (v.Apis.headD {}).Description }
            else ref
          { listing with Apis := listing.Apis ++ [ref] }) listing).Apis =
        listing.Apis ++ entries.map apiRefOf := by
    intro entries
    induction entries with
    | nil => intro listing; simp
    | cons e rest ih =>
      intro listing
      rw [List.foldl_cons, ih]
      simp [apiRefOf]
  unfold SwaggerService.getListing
  simp only
  rw [key]
  simp

theorem apiRefOf_path (entry : GoString × swagger.ApiDeclaration) :
    (apiRefOf entry).Path = entry.1 := by
  unfold apiRefOf
  simp only
  split <;> rfl

theorem apiRefOf_description (entry : GoString × swagger.ApiDeclaration) :
    (apiRefOf entry).Description = (entry.2.Apis.head?.map (fun api => api.Description)).getD (go "") := by
  unfold apiRefOf
  cases h : entry.2.Apis with
  | nil => simp [h]; rfl
  | cons a rest => simp [h]

/-- Claim C14. For a registry (a map, its keys distinct), the listing has one
entry per key: the entry paths are the keys up to order, each once, there are
as many entries as keys, and each entry carries the description of the first
Api of the declaration stored under its path, or the empty string when that
declaration has no Api. -/
theorem getListing_entries (sws : SwaggerService) (env : Env)
    (hnd : (sws.apiDeclarationMap.map Prod.fst).Nodup) :
    ((sws.getListing env).Apis.map (fun ref => ref.Path)).Perm
      (sws.apiDeclarationMap.map Prod.fst) ∧
    ((sws.getListing env).Apis.map (fun ref => ref.Path)).Nodup ∧
    (sws.getListing env).Apis.length = sws.apiDeclarationMap.length ∧
    ∀ ref ∈ (sws.getListing env).Apis,
      ∃ decl, (ref.Path, decl) ∈ sws.apiDeclarationMap ∧
        ref.Description = (decl.Apis.head?.map (fun api => api.Description)).getD (go "") := by
  have hperm : ((sws.getListing env).Apis.map (fun ref => ref.Path)).Perm
      (sws.apiDeclarationMap.map Prod.fst) := by
    rw [getListing_apis, List.map_map]
    have : ((fun ref : ApiRef => ref.Path) ∘ apiRefOf) = Prod.fst := by
      funext e; exact apiRefOf_path e
    rw [this]
    exact (env.range_perm _ _).map _
  refine ⟨hperm, hperm.nodup_iff.mpr hnd, ?_, ?_⟩
  · have := hperm.length_eq
    simpa using this
  · intro ref href
    rw [getListing_apis, List.mem_map] at href
    obtain ⟨e, he, rfl⟩ := href
    refine ⟨e.2, ?_, apiRefOf_description e⟩
    rw [apiRefOf_path]
    exact (env.range_perm _ _).mem_iff.mp he

/-- Witness of claim C14: the registry of the example configuration, whose
listing has the entries `/books` (described by the service) and the empty
key (no description). -/
theorem getListing_entries_witness :
    ((RegisterSwaggerService exampleEnv exampleConfig).apiDeclarationMap.map Prod.fst).Nodup ∧
    ((RegisterSwaggerService exampleEnv exampleConfig).getListing exampleEnv).Apis =
      [{ Path := go "/books", Description := go "the book shop" },
       { Path := go "", Description := go "" }] ∧
    (((RegisterSwaggerService exampleEnv exampleConfig).getListing exampleEnv).Apis.map
        (fun ref => ref.Path)).Perm
      ((RegisterSwaggerService exampleEnv exampleConfig).apiDeclarationMap.map Prod.fst) :=
  ⟨by decide, by decide,
   (getListing_entries (RegisterSwaggerService exampleEnv exampleConfig) exampleEnv
      (by decide)).1⟩

end swagger

/-! ### Further claims on `ComposeDeclaration` and `staticPathFromRoute` -/

namespace swagger
open restful reflect
namespace SwaggerApiDeclarationBuilder

/-- Claim C15. A composed declaration has the configured `WebServicesUrl` as
BasePath and the root path of the service as ResourcePath, whatever the
prefix, and every Api in it carries the documentation of the service as
Description. -/
theorem ComposeDeclaration_header (b : SwaggerApiDeclarationBuilder) (env : Env)
    (pathPrefix : GoString) :
    (b.ComposeDeclaration env pathPrefix).BasePath = b.Config.WebServicesUrl ∧
    (b.ComposeDeclaration env pathPrefix).ResourcePath = b.Service.RootPath ∧
    ∀ api ∈ (b.ComposeDeclaration env pathPrefix).Apis,
      api.Description = b.Service.Documentation := by
  refine ⟨?_, ?_, ?_⟩
  · unfold ComposeDeclaration
    simp only
    rw [(foldl_composeApi b env _ _).2.2.1]
  · unfold ComposeDeclaration
    simp only
    rw [(foldl_composeApi b env _ _).2.2.2]
  · intro api hapi
    obtain ⟨e, _, rfl⟩ := (mem_apis_iff b env pathPrefix api).mp hapi
    rfl

/-- Example: the Apis of the books service are described by the service, not
by the routes, whose own documentation goes to the operation summaries. -/
theorem ComposeDeclaration_header_example :
    (booksBuilder.ComposeDeclaration exampleEnv (go "/books")).Apis.map
        (fun api => (api.Description, api.Operations.map (fun operation => operation.Summary))) =
      [(go "the book shop", [go "all books"]), (go "the book shop", [go "one book"]),
       (go "the book shop", [go "add a review"])] ∧
    (booksBuilder.ComposeDeclaration exampleEnv (go "/books/{id}")).ResourcePath = go "/books" ∧
    (booksBuilder.ComposeDeclaration exampleEnv (go "/books/{id}")).BasePath =
      go "http://localhost:8080" := by
  decide

theorem sum_lengths_assign (m : GoMap (List Route)) (k : GoString) (r : Route) :
    ((GoMap.assign m k (GoMap.lookup m k [] ++ [r])).map (fun e => e.2.length)).sum =
      (m.map (fun e => e.2.length)).sum + 1 := by
  induction m with
  | nil => simp [GoMap.assign, GoMap.lookup]
  | cons e rest ih =>
    obtain ⟨k₀, v₀⟩ := e
    by_cases hk : k₀ = k
    · simp [GoMap.assign, GoMap.lookup, hk]
      omega
    · simp [GoMap.assign, GoMap.lookup, hk, ih]
      omega

theorem sum_lengths_foldl (p : GoString) (routes : List Route) :
    ∀ m : GoMap (List Route),
      ((routes.foldl (groupStep p) m).map (fun e => e.2.length)).sum =
        (m.map (fun e => e.2.length)).sum +
          (routes.filter (fun r => strings.HasPrefix r.Path p)).length := by
  induction routes with
  | nil => intro m; simp
  | cons r rest ih =>
    intro m
    rw [List.foldl_cons, ih]
    by_cases hp : strings.HasPrefix r.Path p = true
    · simp only [groupStep, hp, if_true, List.filter_cons_of_pos, List.length_cons]
      rw [sum_lengths_assign]
      omega
    · simp [groupStep, hp]

theorem routesAt_of_mem_apis (b : SwaggerApiDeclarationBuilder) (env : Env)
    (pathPrefix : GoString) (api : Api)
    (hapi : api ∈ (b.ComposeDeclaration env pathPrefix).Apis) :
    routesAt b.Service.Routes pathPrefix api.Path =
      b.Service.Routes.filter (fun r => decide (r.Path = api.Path)) ∧
    routesAt b.Service.Routes pathPrefix api.Path ≠ [] := by
  obtain ⟨e, he, rfl⟩ := (mem_apis_iff b env pathPrefix api).mp hapi
  obtain ⟨h1, h2⟩ := (pathToRoutes_grouped b pathPrefix).entries e he
  have hne : routesAt b.Service.Routes pathPrefix e.1 ≠ [] := h1 ▸ h2
  refine ⟨?_, hne⟩
  obtain ⟨r₀, hr₀⟩ := List.exists_mem_of_ne_nil _ hne
  rw [routesAt, List.mem_filter] at hr₀
  simp only [Bool.and_eq_true, decide_eq_true_eq] at hr₀
  have hpre : strings.HasPrefix e.1 pathPrefix = true := hr₀.2.2 ▸ hr₀.2.1
  unfold routesAt
  apply List.filter_congr
  intro r _
  show (strings.HasPrefix r.Path pathPrefix && decide (r.Path = e.1)) = decide (r.Path = e.1)
  by_cases h : r.Path = e.1
  · simp [h, hpre]
  · simp [h]

/-- Claim C17. In every Api of a composed declaration the operations stand one
for one, in the route order of the service, against the routes whose Path is
the Path of the Api, each taking HttpMethod, Summary, Nickname, Consumes and
Produces from its route; no Api has an empty operation list; and the number of
operations over all Apis is the number of routes whose path starts with the
prefix. -/
theorem ComposeDeclaration_operations (b : SwaggerApiDeclarationBuilder) (env : Env)
    (pathPrefix : GoString) :
    (∀ api ∈ (b.ComposeDeclaration env pathPrefix).Apis,
      List.Forall₂
        (fun (operation : Operation) (route : Route) =>
          operation.HttpMethod = route.Method ∧ operation.Summary = route.Doc ∧
          operation.Nickname = route.Operation ∧ operation.Consumes = route.Consumes ∧
          operation.Produces = route.Produces)
        api.Operations (b.Service.Routes.filter (fun r => decide (r.Path = api.Path))) ∧
      api.Operations ≠ []) ∧
    ((b.ComposeDeclaration env pathPrefix).Apis.map (fun api => api.Operations.length)).sum =
      (b.Service.Routes.filter (fun r => strings.HasPrefix r.Path pathPrefix)).length := by
  constructor
  · intro api hapi
    obtain ⟨hroutes, hne⟩ := routesAt_of_mem_apis b env pathPrefix api hapi
    constructor
    · rw [← hroutes]
      apply forall₂_operations b env pathPrefix api hapi
      intro route
      rw [operationOf_eq]
      exact ⟨rfl, rfl, rfl, rfl, rfl⟩
    · rw [operations_of_mem_apis b env pathPrefix api hapi]
      intro h
      exact hne (List.map_eq_nil_iff.mp h)
  · rw [ComposeDeclaration_apis, List.map_map]
    have hperm := (env.range_perm (List Route) (b.pathToRoutes pathPrefix)).map
      ((fun api : Api => api.Operations.length) ∘ b.apiOf env)
    rw [hperm.sum_eq]
    have hfun : ((fun api : Api => api.Operations.length) ∘ b.apiOf env) =
        (fun e : GoString × List Route => e.2.length) := by
      funext e; simp [apiOf]
    rw [hfun]
    have := sum_lengths_foldl pathPrefix b.Service.Routes []
    simpa [pathToRoutes] using this

/-- Example: the three routes of the books service give three operations. -/
theorem ComposeDeclaration_operations_example :
    (booksBuilder.ComposeDeclaration exampleEnv (go "/books")).Apis.map
        (fun api => api.Operations.map (fun operation =>
          (operation.HttpMethod, operation.Nickname))) =
      [[(go "GET", go "listBooks")], [(go "GET", go "getBook")],
       [(go "POST", go "addReview")]] := by
  decide

end SwaggerApiDeclarationBuilder
end swagger

namespace swagger
open restful reflect
namespace SwaggerApiDeclarationBuilder

/-- Claim C18, the code at the failing input. The path `/a/b/` has no '{' and
ends in "/"; `staticPathFromRoute` returns it unchanged, the trailing "/"
included, and not `/a/b`: the index -1 of the absent '{' passes the test
`bracket <= 1`. -/
theorem staticPathFromRoute_trailing_slash_kept :
    (0x7b : UInt8) ∉ (bareRoute (go "/a/b/")).Path ∧
    go "/" <:+ (bareRoute (go "/a/b/")).Path ∧
    strings.Index (bareRoute (go "/a/b/")).Path (go "\x7b") = -1 ∧
    rootlessBuilder.staticPathFromRoute (bareRoute (go "/a/b/")) = go "/a/b/" ∧
    rootlessBuilder.staticPathFromRoute (bareRoute (go "/a/b/")) ≠ go "/a/b" := by
  decide

/-- Example: the empty path has no '{' either and is returned as it is; the
result is empty for the empty path only. -/
theorem staticPathFromRoute_empty_path :
    rootlessBuilder.staticPathFromRoute (bareRoute (go "")) = go "" := by
  decide

theorem staticPathFromRoute_prefix (b : SwaggerApiDeclarationBuilder) (r : Route) :
    b.staticPathFromRoute r <+: r.Path := by
  by_cases hmem : (0x7b : UInt8) ∈ r.Path
  · obtain ⟨pre, rest, hpath, hpre⟩ := List.first_occurrence _ _ hmem
    have hpath' : r.Path = pre ++ go "\x7b" ++ rest := by
      rw [hpath, strings.go_bracket]; simp
    rw [staticPathFromRoute_of_bracket b r pre rest hpath' hpre]
    split
    · exact List.prefix_refl _
    · have hp : pre <+: r.Path := by
        rw [hpath]; exact List.prefix_append _ _
      split
      · exact (List.dropLast_prefix pre).trans hp
      · exact hp
  · rw [staticPathFromRoute_no_bracket b r hmem]

/-- Claim C19. The static path of a route of the service is a string prefix of
the path of the route; so the declaration composed for that static path has an
Api whose Path is the path of the route, holding the operation built from the
route. -/
theorem ComposeDeclaration_static_path_keeps_route (b : SwaggerApiDeclarationBuilder)
    (env : Env) (r : Route) (hr : r ∈ b.Service.Routes) :
    b.staticPathFromRoute r <+: r.Path ∧
    ∃ api ∈ (b.ComposeDeclaration env (b.staticPathFromRoute r)).Apis,
      api.Path = r.Path ∧ b.operationOf env r ∈ api.Operations := by
  have hpre := staticPathFromRoute_prefix b r
  refine ⟨hpre, ?_⟩
  have hg := pathToRoutes_grouped b (b.staticPathFromRoute r)
  have hp : strings.HasPrefix r.Path (b.staticPathFromRoute r) = true :=
    List.isPrefixOf_iff_prefix.mpr hpre
  obtain ⟨e, he, hek⟩ := List.mem_map.mp (hg.covered r hr hp)
  refine ⟨b.apiOf env e, (mem_apis_iff b env _ _).mpr ⟨e, he, rfl⟩, hek, ?_⟩
  have hr' : r ∈ e.2 := by
    rw [(hg.entries e he).1, routesAt, List.mem_filter]
    exact ⟨hr, by simp [hp, hek]⟩
  exact List.mem_map_of_mem _ hr'

/-- Witness of claim C19: the route `/a/{y}/extra` of the rootless service. -/
theorem ComposeDeclaration_static_path_keeps_route_witness :
    bareRoute (go "/a/{y}/extra") ∈ rootlessBuilder.Service.Routes ∧
    rootlessBuilder.staticPathFromRoute (bareRoute (go "/a/{y}/extra")) = go "/a" ∧
    (rootlessBuilder.staticPathFromRoute (bareRoute (go "/a/{y}/extra")) <+:
        (bareRoute (go "/a/{y}/extra")).Path ∧
      ∃ api ∈ (rootlessBuilder.ComposeDeclaration exampleEnv
          (rootlessBuilder.staticPathFromRoute (bareRoute (go "/a/{y}/extra")))).Apis,
        api.Path = (bareRoute (go "/a/{y}/extra")).Path ∧
        rootlessBuilder.operationOf exampleEnv (bareRoute (go "/a/{y}/extra")) ∈
          api.Operations) :=
  ⟨by decide, by decide,
   ComposeDeclaration_static_path_keeps_route rootlessBuilder exampleEnv
     (bareRoute (go "/a/{y}/extra")) (by decide)⟩

end SwaggerApiDeclarationBuilder
end swagger

/-! ### The model builder on cyclic types -/

namespace swagger
open restful reflect
namespace modelBuilder

theorem missing_mono (u : List GoString) (m m' : GoMap Model)
    (h : ∀ k ∈ m.map Prod.fst, k ∈ m'.map Prod.fst) : missing u m' ≤ missing u m := by
  unfold missing
  apply List.Sublist.length_le
  apply List.monotone_filter_right
  intro k hk
  simp only [decide_eq_true_eq] at hk ⊢
  exact fun hc => hk (h k hc)

theorem missing_lt (u : List GoString) (m m' : GoMap Model) (k : GoString)
    (h : ∀ k ∈ m.map Prod.fst, k ∈ m'.map Prod.fst) (hu : k ∈ u)
    (hk : k ∉ m.map Prod.fst) (hk' : k ∈ m'.map Prod.fst) : missing u m' < missing u m := by
  unfold missing
  have hsub : (u.dedup.filter (fun k => decide (k ∉ m'.map Prod.fst))).Sublist
      (u.dedup.filter (fun k => decide (k ∉ m.map Prod.fst))) := by
    apply List.monotone_filter_right
    intro k hk
    simp only [decide_eq_true_eq] at hk ⊢
    exact fun hc => hk (h k hc)
  rcases Nat.lt_or_ge (u.dedup.filter (fun k => decide (k ∉ m'.map Prod.fst))).length
      (u.dedup.filter (fun k => decide (k ∉ m.map Prod.fst))).length with hlt | hge
  · exact hlt
  · have heq := hsub.eq_of_length_le hge
    have hin : k ∈ u.dedup.filter (fun k => decide (k ∉ m.map Prod.fst)) := by
      rw [List.mem_filter]
      exact ⟨List.mem_dedup.mpr hu, by simpa using hk⟩
    rw [← heq, List.mem_filter] at hin
    have := hin.2
    simp only [decide_eq_true_eq] at this
    exact absurd hk' this

theorem missing_le (u : List GoString) (m : GoMap Model) : missing u m ≤ u.length := by
  unfold missing
  exact (List.length_filter_le _ _).trans (List.Sublist.length_le (List.dedup_sublist u))

theorem fieldKeys_subset_nameUniverse (table : TypeTable) (st : GoType) (k k' : GoString)
    (h : k' ∈ fieldKeys table k) : k' ∈ nameUniverse table st := by
  unfold fieldKeys at h
  obtain ⟨f, hf, rfl⟩ := List.mem_map.mp h
  unfold nameUniverse
  refine List.mem_cons_of_mem _ (List.mem_flatMap.mpr ?_)
  have key : ∀ (t : TypeTable), f ∈ GoMap.lookup t k [] → ∃ e ∈ t, f ∈ e.2 := by
    intro t
    induction t with
    | nil => intro h; simp [GoMap.lookup] at h
    | cons e rest ih =>
      obtain ⟨k₀, v₀⟩ := e
      intro h
      by_cases hk : k₀ = k
      · simp only [GoMap.lookup, hk, if_true] at h
        exact ⟨(k₀, v₀), List.mem_cons_self _ _, h⟩
      · simp only [GoMap.lookup, hk, if_false] at h
        obtain ⟨e, he, hfe⟩ := ih h
        exact ⟨e, List.mem_cons_of_mem _ he, hfe⟩
  obtain ⟨e, he, hfe⟩ := key table hf
  exact ⟨e, he, List.mem_map_of_mem _ hfe⟩

end modelBuilder
end swagger

namespace swagger
open restful reflect
namespace modelBuilder

theorem addModel_fields (table : TypeTable) (u : List GoString) (fuel : Nat)
    (pending : List GoString)
    (ih : ∀ (models : GoMap Model) (st : GoType), (models.map Prod.fst).Nodup →
      Closed table pending models → missing u models < fuel → modelKey st ∈ u →
      ∃ models', addModel table fuel models st = some models' ∧
        Registered table pending models models' ∧ modelKey st ∈ models'.map Prod.fst)
    (fields : List (GoString × GoType)) :
    (∀ f ∈ fields, modelKey f.2 ∈ u) →
    ∀ m : GoMap Model, (m.map Prod.fst).Nodup → Closed table pending m → missing u m < fuel →
      ∃ m', fields.foldlM (fun models f => addModel table fuel models f.2) m = some m' ∧
        Registered table pending m m' ∧ ∀ f ∈ fields, modelKey f.2 ∈ m'.map Prod.fst := by
  induction fields with
  | nil =>
    intro _ m hnd hcl _
    exact ⟨m, rfl, ⟨hnd, fun _ h => h, hcl⟩, by simp⟩
  | cons f rest ihf =>
    intro hu m hnd hcl hlt
    obtain ⟨m₁, h₁, r₁, hk₁⟩ := ih m f.2 hnd hcl hlt (hu f (List.mem_cons_self _ _))
    have hlt₁ : missing u m₁ < fuel := Nat.lt_of_le_of_lt (missing_mono u m m₁ r₁.grows) hlt
    obtain ⟨m₂, h₂, r₂, hk₂⟩ :=
      ihf (fun g hg => hu g (List.mem_cons_of_mem _ hg)) m₁ r₁.nodup r₁.closed hlt₁
    refine ⟨m₂, ?_, ⟨r₂.nodup, fun k hk => r₂.grows k (r₁.grows k hk), r₂.closed⟩, ?_⟩
    · rw [List.foldlM_cons, h₁]
      exact h₂
    · intro g hg
      rcases List.mem_cons.mp hg with rfl | hg
      · exact r₂.grows _ hk₁
      · exact hk₂ g hg

theorem addModel_returns (table : TypeTable) (u : List GoString)
    (hu : ∀ k k', k' ∈ fieldKeys table k → k' ∈ u) (fuel : Nat) :
    ∀ (pending : List GoString) (models : GoMap Model) (st : GoType),
      (models.map Prod.fst).Nodup → Closed table pending models → missing u models < fuel →
      modelKey st ∈ u →
      ∃ models', addModel table fuel models st = some models' ∧
        Registered table pending models models' ∧ modelKey st ∈ models'.map Prod.fst := by
  induction fuel with
  | zero => intro _ _ _ _ _ h; exact absurd h (Nat.not_lt_zero _)
  | succ fuel ih =>
    intro pending models st hnd hcl hlt hst
    unfold addModel
    simp only
    by_cases hin : modelKey st ∈ models.map Prod.fst
    · rw [if_pos hin]
      exact ⟨models, rfl, ⟨hnd, fun _ h => h, hcl⟩, hin⟩
    · rw [if_neg hin]
      have hkeys := GoMap.keys_assign models (modelKey st)
        ({ Id := modelKey st,
           Properties := (GoMap.lookup table (modelKey st) []).map
             (fun f => (f.1, propertyType f.2)) } : Model)
      rw [if_neg hin] at hkeys
      have hnd₁ := GoMap.nodup_keys_assign models (modelKey st)
        ({ Id := modelKey st,
           Properties := (GoMap.lookup table (modelKey st) []).map
             (fun f => (f.1, propertyType f.2)) } : Model) hnd
      have hgrow₁ : ∀ k ∈ models.map Prod.fst, k ∈ (GoMap.assign models (modelKey st)
          ({ Id := modelKey st,
             Properties := (GoMap.lookup table (modelKey st) []).map
               (fun f => (f.1, propertyType f.2)) } : Model)).map Prod.fst := by
        intro k hk
        rw [hkeys]
        exact List.mem_append_left _ hk
      have hself₁ : modelKey st ∈ (GoMap.assign models (modelKey st)
          ({ Id := modelKey st,
             Properties := (GoMap.lookup table (modelKey st) []).map
               (fun f => (f.1, propertyType f.2)) } : Model)).map Prod.fst := by
        rw [hkeys]
        exact List.mem_append_right _ (List.mem_singleton_self _)
      have hlt₁ := Nat.lt_of_lt_of_le
        (missing_lt u models _ (modelKey st) hgrow₁ hst hin hself₁) (Nat.le_of_lt_succ hlt)
      have hcl₁ : Closed table (modelKey st :: pending) (GoMap.assign models (modelKey st)
          ({ Id := modelKey st,
             Properties := (GoMap.lookup table (modelKey st) []).map
               (fun f => (f.1, propertyType f.2)) } : Model)) := by
        intro k hk hpend k' hk'
        rw [hkeys] at hk
        rcases List.mem_append.mp hk with hk | hk
        · exact hgrow₁ k' (hcl k hk (fun h => hpend (List.mem_cons_of_mem _ h)) k' hk')
        · exact absurd (List.mem_cons.mpr (Or.inl (List.mem_singleton.mp hk))) hpend
      obtain ⟨m', hm', r, hfk⟩ := addModel_fields table u fuel (modelKey st :: pending)
        (ih (modelKey st :: pending)) (GoMap.lookup table (modelKey st) [])
        (fun f hf => hu (modelKey st) _ (List.mem_map_of_mem _ hf)) _ hnd₁ hcl₁ hlt₁
      refine ⟨m', hm', ⟨r.nodup, fun k hk => r.grows k (hgrow₁ k hk), ?_⟩, r.grows _ hself₁⟩
      intro k hk hpend k' hk'
      by_cases hkk : k = modelKey st
      · subst hkk
        obtain ⟨f, hf, rfl⟩ := List.mem_map.mp hk'
        exact hfk f hf
      · exact r.closed k hk (fun h => by
          rcases List.mem_cons.mp h with h | h
          · exact hkk h
          · exact hpend h) k' hk'

end modelBuilder
end swagger

namespace swagger
open restful reflect
namespace modelBuilder

theorem addModel_fuel_succ (table : TypeTable) (fuel : Nat) :
    ∀ (models : GoMap Model) (st : GoType) (models' : GoMap Model),
      addModel table fuel models st = some models' →
      addModel table (fuel + 1) models st = some models' := by
  induction fuel with
  | zero => intro _ _ _ h; simp [addModel] at h
  | succ fuel ih =>
    intro models st models' h
    unfold addModel at h ⊢
    simp only at h ⊢
    by_cases hin : modelKey st ∈ models.map Prod.fst
    · rw [if_pos hin] at h ⊢
      exact h
    · rw [if_neg hin] at h ⊢
      have key : ∀ (fields : List (GoString × GoType)) (m m' : GoMap Model),
          fields.foldlM (fun models f => addModel table fuel models f.2) m = some m' →
          fields.foldlM (fun models f => addModel table (fuel + 1) models f.2) m = some m' := by
        intro fields
        induction fields with
        | nil => intro m m' h; exact h
        | cons f rest ihf =>
          intro m m' h
          rw [List.foldlM_cons] at h ⊢
          cases h₁ : addModel table fuel m f.2 with
          | none => rw [h₁] at h; simp at h
          | some m₁ =>
            rw [h₁] at h
            rw [ih m f.2 m₁ h₁]
            exact ihf m₁ m' h
      exact key _ _ _ h

theorem addModel_fuel_le (table : TypeTable) (fuel fuel' : Nat) (hle : fuel ≤ fuel')
    (models : GoMap Model) (st : GoType) (models' : GoMap Model)
    (h : addModel table fuel models st = some models') :
    addModel table fuel' models st = some models' := by
  induction hle with
  | refl => exact h
  | step _ ih => exact addModel_fuel_succ table _ _ _ _ ih

theorem occurs_once (l : List GoString) (k : GoString) (hnd : l.Nodup) (hk : k ∈ l) :
    (l.filter (fun x => decide (x = k))).length = 1 := by
  induction l with
  | nil => simp at hk
  | cons x rest ih =>
    obtain ⟨hx, hrest⟩ := List.nodup_cons.mp hnd
    by_cases hxk : x = k
    · subst hxk
      have : rest.filter (fun y => decide (y = x)) = [] := by
        rw [List.filter_eq_nil_iff]
        intro y hy
        simp only [decide_eq_true_eq]
        exact fun e => hx (e ▸ hy)
      simp [this]
    · have hk' : k ∈ rest := by
        rcases List.mem_cons.mp hk with e | e
        · exact absurd e.symm hxk
        · exact e
      simp [hxk, ih hrest hk']

theorem wraps_elementType (st : GoType) : Wraps st (elementType st) := by
  induction st with
  | struct pkg name => exact Wraps.struct pkg name
  | scalar name => exact Wraps.scalar name
  | ptr e ih => exact Wraps.ptr ih
  | slice e ih => exact Wraps.slice ih
  | array n e ih => exact Wraps.array ih
  | defined pkg name u ih => exact Wraps.defined ih

theorem elementType_of_wraps (st r : GoType) (h : Wraps st r) : elementType st = r := by
  induction h with
  | struct pkg name => rfl
  | scalar name => rfl
  | ptr _ ih => exact ih
  | slice _ ih => exact ih
  | array _ ih => exact ih
  | defined _ ih => exact ih

theorem modelKey_of_wraps (st r : GoType) (h : Wraps st r) : modelKey st = keyFrom r := by
  unfold modelKey
  rw [elementType_of_wraps st r h]

theorem reaches_registered (table : TypeTable) (m : GoMap Model) (hcl : Closed table [] m)
    (root t : GoType) (h₀ : keyFrom root ∈ m.map Prod.fst) (h : Reaches table root t) :
    keyFrom t ∈ m.map Prod.fst := by
  induction h with
  | refl => exact h₀
  | field _ href ih =>
    obtain ⟨f, hf, hw⟩ := href
    refine hcl _ ih (List.not_mem_nil _) _ ?_
    unfold fieldKeys
    rw [← modelKey_of_wraps f.2 _ hw]
    exact List.mem_map_of_mem _ hf

theorem Reaches.trans {table : TypeTable} {a b c : GoType} (hab : Reaches table a b)
    (hbc : Reaches table b c) : Reaches table a c := by
  induction hbc with
  | refl => exact hab
  | field _ href ih => exact Reaches.field ih href

theorem addModel_entries (table : TypeTable) (fuel : Nat) :
    ∀ (models : GoMap Model) (st : GoType) (models' : GoMap Model),
      addModel table fuel models st = some models' →
      ∀ name ∈ models'.map Prod.fst,
        name ∈ models.map Prod.fst ∨
          ∃ t, Reaches table (elementType st) t ∧ keyFrom t = name := by
  induction fuel with
  | zero => intro _ _ _ h; simp [addModel] at h
  | succ fuel ih =>
    intro models st models' h
    unfold addModel at h
    simp only at h
    by_cases hin : modelKey st ∈ models.map Prod.fst
    · rw [if_pos hin] at h
      cases h
      exact fun name hname => Or.inl hname
    · rw [if_neg hin] at h
      have key : ∀ (fields : List (GoString × GoType)),
          (∀ f ∈ fields, RefersTo table (elementType st) (elementType f.2)) →
          ∀ (m m' : GoMap Model),
          fields.foldlM (fun models f => addModel table fuel models f.2) m = some m' →
          ∀ name ∈ m'.map Prod.fst,
            name ∈ m.map Prod.fst ∨ ∃ t, Reaches table (elementType st) t ∧ keyFrom t = name := by
        intro fields
        induction fields with
        | nil =>
          intro _ m m' h name hname
          cases h
          exact Or.inl hname
        | cons f rest ihf =>
          intro hfs m m' h name hname
          rw [List.foldlM_cons] at h
          cases h₁ : addModel table fuel m f.2 with
          | none => rw [h₁] at h; simp at h
          | some m₁ =>
            rw [h₁] at h
            rcases ihf (fun g hg => hfs g (List.mem_cons_of_mem _ hg)) m₁ m' h name hname with
              hn | hn
            · rcases ih m f.2 m₁ h₁ name hn with hn | ⟨t, ht, hkt⟩
              · exact Or.inl hn
              · exact Or.inr ⟨t, Reaches.trans
                  (Reaches.field (Reaches.refl _) (hfs f (List.mem_cons_self _ _))) ht, hkt⟩
            · exact Or.inr hn
      intro name hname
      rcases key _ (fun f hf => ⟨f, hf, wraps_elementType f.2⟩) _ _ h name hname with hn | hn
      · rw [GoMap.keys_assign, if_neg hin] at hn
        rcases List.mem_append.mp hn with hn | hn
        · exact Or.inl hn
        · exact Or.inr ⟨elementType st, Reaches.refl _, (List.mem_singleton.mp hn).symm⟩
      · exact Or.inr hn

/-- Claim C16. Registering a type through `addModel` returns: every fuel from
`fuelFor` on gives the same table, the one `addModelFromSampleTo` leaves. In
that table no name occurs twice, and every type reachable through fields from
the record that the registered type is or wraps, under whatever pointers and
sequences the fields hold it, has exactly one entry under its name: so a
self-referential record and every type of a cycle through it have one entry
each; and every entry that was not there before is that of such a reachable
type. The table registered into has distinct names and holds the field types
of its models, as the empty table and every table that registrations have
built do. -/
theorem addModel_cyclic_types (table : TypeTable) (models : GoMap Model) (st root : GoType)
    (hnd : (models.map Prod.fst).Nodup) (hcl : Closed table [] models)
    (hroot : Wraps st root) :
    (∀ fuel, fuelFor table st ≤ fuel →
      addModel table fuel models st = some (register table models st)) ∧
    (∀ (b : SwaggerApiDeclarationBuilder) (env : Env) (operation : Operation)
        (isResponse : Bool),
      (b.addModelFromSampleTo (env.withModelBuilder table) operation isResponse st models).2 =
        register table models st) ∧
    ((register table models st).map Prod.fst).Nodup ∧
    Closed table [] (register table models st) ∧
    (∀ t, Reaches table root t →
      (((register table models st).map Prod.fst).filter
        (fun name => decide (name = keyFrom t))).length = 1) ∧
    ∀ name ∈ (register table models st).map Prod.fst,
      name ∈ models.map Prod.fst ∨ ∃ t, Reaches table root t ∧ keyFrom t = name := by
  have hlt : missing (nameUniverse table st) models < fuelFor table st :=
    Nat.lt_succ_of_le (missing_le _ _)
  obtain ⟨m', hm', r, hk⟩ := addModel_returns table (nameUniverse table st)
    (fun k k' h => fieldKeys_subset_nameUniverse table st k k' h) (fuelFor table st)
    [] models st hnd hcl hlt (List.mem_cons_self _ _)
  have hreg : register table models st = m' := by
    unfold register
    rw [hm']
    rfl
  rw [hreg]
  refine ⟨fun fuel hle => addModel_fuel_le table _ fuel hle models st m' hm', ?_, r.nodup,
    r.closed, ?_, ?_⟩
  · intro b env operation isResponse
    rw [← hreg]
    rfl
  · intro t hreach
    rw [modelKey_of_wraps st root hroot] at hk
    exact occurs_once _ _ r.nodup (reaches_registered table m' r.closed root t hk hreach)
  · have := addModel_entries table _ models st m' hm'
    rw [elementType_of_wraps st root hroot] at this
    exact this

/-- Witness of claim C16: registering `[]main.Book` into the empty table, where
`Book` refers to `Author` through `*Author` and `Author` to `Book` through
`[]*Book`. -/
theorem addModel_cyclic_types_witness :
    (([] : GoMap Model).map Prod.fst).Nodup ∧
    Wraps (.slice bookType) bookType ∧
    Reaches cyclicTable bookType authorType ∧ Reaches cyclicTable authorType bookType ∧
    (register cyclicTable [] (.slice bookType)).map Prod.fst =
      [go "main.Book", go "string", go "main.Author"] ∧
    ∀ t, Reaches cyclicTable bookType t →
      (((register cyclicTable [] (.slice bookType)).map Prod.fst).filter
        (fun name => decide (name = keyFrom t))).length = 1 :=
  ⟨List.nodup_nil, Wraps.slice (Wraps.struct _ _),
   Reaches.field (Reaches.refl _)
     ⟨(go "Writer", .ptr authorType), by decide, Wraps.ptr (Wraps.struct _ _)⟩,
   Reaches.field (Reaches.refl _)
     ⟨(go "Books", .slice (.ptr bookType)), by decide,
      Wraps.slice (Wraps.ptr (Wraps.struct _ _))⟩,
   by decide,
   (addModel_cyclic_types cyclicTable [] (.slice bookType) bookType List.nodup_nil
      (fun _ hk => absurd hk (List.not_mem_nil _)) (Wraps.slice (Wraps.struct _ _))).2.2.2.2.1⟩

/-- Example: the cycles of the table. `Node` refers to itself through its field
`Next *Node`, and registering a `*Node` leaves one entry for `Node`;
registering `Author`, which holds its books as `[]*Book`, leaves one entry for
`Author` and one for `Book`; with too little fuel `addModel` does not
return. -/
theorem cyclicTable_cycles :
    RefersTo cyclicTable nodeType nodeType ∧
    (register cyclicTable [] (.ptr nodeType)).map Prod.fst = [go "main.Node", go "int"] ∧
    (register cyclicTable [] authorType).map Prod.fst =
      [go "main.Author", go "string", go "main.Book"] ∧
    addModel cyclicTable 1 [] (.ptr nodeType) = none :=
  ⟨⟨(go "Next", .ptr nodeType), by decide, Wraps.ptr (Wraps.struct _ _)⟩,
   by decide, by decide, by decide⟩

end modelBuilder
end swagger
